import Mathlib

/-!
Verification of the stellatus-content-crew core: a shallow embedding of the
agent/skill execution framework, the pipeline sequencer, the document
chunker, the retriever formatting logic, the registry and the event bus,
together with proofs of the spec's testable properties.

Python text is modelled as `List Char`; Python `int` as `Int`; Python
`dict` as an association list with Python lookup semantics; fallible code
returns `Except`; the `while` loops of the chunker run on explicit fuel,
`none` marking a loop that has not exited (the fixed-size loop really can
diverge, see the theorems below).
-/

namespace StellatusSpec

/-! ## Python string primitives -/

/-- Python whitespace (the characters matched by `str.strip`, `str.split()`
and the regex class `\s` on the inputs of this repository). -/
def isPySpace (c : Char) : Bool :=
  c == ' ' || c == '\t' || c == '\n' || c == '\r' || c == '\x0b' || c == '\x0c'

/-- `str.strip()`: drop leading and trailing whitespace. -/
def pyStrip (s : List Char) : List Char :=
  ((s.dropWhile isPySpace).reverse.dropWhile isPySpace).reverse

/-- Normalization of a Python slice endpoint: a negative index counts from
the end and is clamped at 0, a non-negative one is clamped at `len`. -/
def pyBnd (len : Nat) (i : Int) : Nat :=
  if i < 0 then ((len : Int) + i).toNat else min i.toNat len

/-- Python `s[a:b]` for `a b : int`. -/
def pySlice (s : List Char) (a b : Int) : List Char :=
  ((s.drop (pyBnd s.length a)).take (pyBnd s.length b - pyBnd s.length a))

/-- Python `s.rfind(" ", a, b)`: the largest index of a space character in
`s[a:b]`, or `-1` when there is none. -/
def pyRfindSpace (s : List Char) (a b : Int) : Int :=
  let a' := pyBnd s.length a
  let b' := pyBnd s.length b
  match ((List.range s.length).filter
      (fun i => decide (a' ≤ i) && decide (i < b') && (s.getD i 'x' == ' '))).getLast? with
  | some i => (i : Int)
  | none => -1

/-- The non-whitespace characters of a text, in order. -/
def nonWs (s : List Char) : List Char := s.filter (fun c => !isPySpace c)

/-- `t` occurs contiguously inside `s` (true substring). -/
def substringOf (t s : List Char) : Prop := ∃ u v, s = u ++ t ++ v

/-! ## DocumentChunker (src/rag/ingestion/chunking.py) -/

/-- The four chunking strategies. -/
inductive ChunkingStrategy where
  | fixed_size
  | semantic
  | paragraph
  | sliding_window
deriving DecidableEq

/-- A metadata value of a chunk: either a caller-supplied value or the
`chunk_index` ordinal inserted by the chunker. -/
inductive MVal (α : Type) where
  | user : α → MVal α
  | idx : Nat → MVal α
deriving DecidableEq

/-- A chunk of text (`Chunk` dataclass; the uuid `id` is not modelled). -/
structure Chunk (α : Type) where
  content : List Char
  metadata : List (String × MVal α)
  start_index : Int
  end_index : Int
deriving DecidableEq

/-- The metadata dict `{**metadata, "chunk_index": i}` built at every
append site of the chunker. -/
def mergeMeta (metadata : List (String × α)) (i : Nat) : List (String × MVal α) :=
  (metadata.filter (fun p => p.1 != "chunk_index")).map (fun p => (p.1, MVal.user p.2))
    ++ [("chunk_index", MVal.idx i)]

/-- The chunker configuration (`DocumentChunker.__init__`; the Python
defaults are `chunk_size=500`, `chunk_overlap=50`). -/
structure DocumentChunker where
  chunk_size : Int
  chunk_overlap : Int
deriving DecidableEq

/-- The append site shared by every strategy of the chunker: strip the
candidate span and emit a `Chunk` carrying `chunk_index = len(chunks)`
only when something non-empty remains
(`chunk_text = ...strip(); if chunk_text: chunks.append(...)`). -/
def appendChunk (meta : List (String × α)) (chunks : List (Chunk α)) (s : List Char)
    (a b : Int) : List (Chunk α) :=
  let t := pyStrip s
  if t = [] then chunks
  else chunks ++ [⟨t, mergeMeta meta chunks.length, a, b⟩]

/-- The window-end computation of `_chunk_fixed_size`:
`end = min(start + chunk_size, len(text))`, trimmed back to the last
space strictly after `start` when the window would split a word. -/
def fixedEnd (c : DocumentChunker) (text : List Char) (start : Int) : Int :=
  let e0 : Int := min (start + c.chunk_size) (text.length : Int)
  if e0 < (text.length : Int) then
    let lastSpace := pyRfindSpace text start e0
    if lastSpace > start then lastSpace else e0
  else e0

/-- The `while start < len(text)` loop of `_chunk_fixed_size`, on fuel;
the next window starts at `end - chunk_overlap` (or at the text end);
`none` means the loop had not exited when the fuel ran out. -/
def fixedSizeRun (c : DocumentChunker) (text : List Char) (meta : List (String × α)) :
    Nat → Int → List (Chunk α) → Option (List (Chunk α))
  | 0, start, chunks =>
      if start < (text.length : Int) then none else some chunks
  | Nat.succ fuel, start, chunks =>
      if start < (text.length : Int) then
        let e := fixedEnd c text start
        fixedSizeRun c text meta fuel
          (if e < (text.length : Int) then e - c.chunk_overlap else (text.length : Int))
          (appendChunk meta chunks (pySlice text start e) start e)
      else some chunks

/-- `DocumentChunker._chunk_fixed_size`. -/
def DocumentChunker.chunkFixedSize (c : DocumentChunker) (text : List Char)
    (meta : List (String × α)) (fuel : Nat) : Option (List (Chunk α)) :=
  fixedSizeRun c text meta fuel 0 []

/-- The `while start < len(text)` loop of `_chunk_sliding_window` with its
constant step `chunk_size - chunk_overlap` and its `break` once the window
reaches the end of the text. -/
def slidingRun (c : DocumentChunker) (text : List Char) (meta : List (String × α)) :
    Nat → Int → List (Chunk α) → Option (List (Chunk α))
  | 0, start, chunks =>
      if start < (text.length : Int) then none else some chunks
  | Nat.succ fuel, start, chunks =>
      if start < (text.length : Int) then
        let e : Int := min (start + c.chunk_size) (text.length : Int)
        let chunks' := appendChunk meta chunks (pySlice text start e) start e
        if e ≥ (text.length : Int) then some chunks'
        else slidingRun c text meta fuel (start + (c.chunk_size - c.chunk_overlap)) chunks'
      else some chunks

/-- `DocumentChunker._chunk_sliding_window`. -/
def DocumentChunker.chunkSlidingWindow (c : DocumentChunker) (text : List Char)
    (meta : List (String × α)) (fuel : Nat) : Option (List (Chunk α)) :=
  slidingRun c text meta fuel 0 []

/-- A sentence-ending character of the regex `(?<=[.!?])\s+`. -/
def isSentEnd (c : Char) : Bool := c == '.' || c == '!' || c == '?'

/-- Whether the next character exists and is whitespace. -/
def headIsSpace (l : List Char) : Bool :=
  match l with
  | [] => false
  | d :: _ => isPySpace d

/-- Single-pass scanner for `re.split(r"(?<=[.!?])\s+", text)`: state
`some acc` is the current piece (reversed), state `none` means we are
inside a separator run of whitespace. -/
def sentScan : Option (List Char) → List Char → List (List Char)
  | none, [] => [[]]
  | none, c :: rest =>
      if isPySpace c then sentScan none rest else sentScan (some [c]) rest
  | some acc, [] => [acc.reverse]
  | some acc, c :: rest =>
      if isSentEnd c && headIsSpace rest then (acc.reverse ++ [c]) :: sentScan none rest
      else sentScan (some (c :: acc)) rest

/-- The sentence list of `_chunk_semantic`. -/
def splitSentences (text : List Char) : List (List Char) := sentScan (some []) text

/-- The sentence-accumulation loop of `_chunk_semantic` (including the
final flush of the remaining text). -/
def semanticAccum (c : DocumentChunker) (meta : List (String × α)) :
    List (List Char) → List Char → Int → List (Chunk α) → List (Chunk α)
  | [], current, currentStart, chunks =>
      appendChunk meta chunks current currentStart (currentStart + (current.length : Int))
  | s :: ss, current, currentStart, chunks =>
      if (current.length : Int) + (s.length : Int) ≤ c.chunk_size then
        semanticAccum c meta ss (current ++ s ++ [' ']) currentStart chunks
      else
        semanticAccum c meta ss (s ++ [' ']) (currentStart + (current.length : Int))
          (appendChunk meta chunks current currentStart
            (currentStart + (current.length : Int)))

/-- `DocumentChunker._chunk_semantic`. -/
def DocumentChunker.chunkSemantic (c : DocumentChunker) (text : List Char)
    (meta : List (String × α)) : List (Chunk α) :=
  semanticAccum c meta (splitSentences text) [] 0 []

/-- Whether the next character exists and is a newline. -/
def headIsNl (l : List Char) : Bool :=
  match l with
  | [] => false
  | d :: _ => d == '\n'

/-- Single-pass scanner for `re.split(r"\n\n+", text)`: state `none` means
we are inside a separator run of newlines. -/
def paraScan : Option (List Char) → List Char → List (List Char)
  | none, [] => [[]]
  | none, c :: rest =>
      if c == '\n' then paraScan none rest else paraScan (some [c]) rest
  | some acc, [] => [acc.reverse]
  | some acc, c :: rest =>
      if c == '\n' && headIsNl rest then acc.reverse :: paraScan none rest
      else paraScan (some (c :: acc)) rest

/-- The paragraph list of `_chunk_paragraph`. -/
def splitParas (text : List Char) : List (List Char) := paraScan (some []) text

/-- The paragraph-accumulation loop of `_chunk_paragraph` with its
`position` bookkeeping (including the final flush). -/
def paragraphAccum (c : DocumentChunker) (meta : List (String × α)) :
    List (List Char) → List Char → Int → Int → List (Chunk α) → List (Chunk α)
  | [], current, currentStart, position, chunks =>
      appendChunk meta chunks current currentStart position
  | p :: ps, current, currentStart, position, chunks =>
      let para := pyStrip p
      if para = [] then paragraphAccum c meta ps current currentStart (position + 2) chunks
      else if (current.length : Int) + (para.length : Int) ≤ c.chunk_size then
        paragraphAccum c meta ps (current ++ para ++ ['\n', '\n']) currentStart
          (position + (para.length : Int) + 2) chunks
      else
        paragraphAccum c meta ps (para ++ ['\n', '\n']) position
          (position + (para.length : Int) + 2)
          (appendChunk meta chunks current currentStart position)

/-- `DocumentChunker._chunk_paragraph`. -/
def DocumentChunker.chunkParagraph (c : DocumentChunker) (text : List Char)
    (meta : List (String × α)) : List (Chunk α) :=
  paragraphAccum c meta (splitParas text) [] 0 0 []

/-- `DocumentChunker.chunk`: dispatch on the strategy. The two
window-based strategies run on fuel; the two split-based ones always
terminate. -/
def DocumentChunker.chunk (c : DocumentChunker) (text : List Char)
    (strategy : ChunkingStrategy) (meta : List (String × α)) (fuel : Nat) :
    Option (List (Chunk α)) :=
  match strategy with
  | .fixed_size => c.chunkFixedSize text meta fuel
  | .semantic => some (c.chunkSemantic text meta)
  | .paragraph => some (c.chunkParagraph text meta)
  | .sliding_window => c.chunkSlidingWindow text meta fuel

/-- Concatenation of the text of a list of chunks. -/
def chunkContents (chunks : List (Chunk α)) : List Char :=
  (chunks.map Chunk.content).flatten

/-- The per-chunk invariant of a chunk list starting at ordinal `i`:
every chunk is non-empty with at least one non-whitespace character, and
its metadata is the caller metadata with `chunk_index` equal to its
position. -/
def chunksOkFrom (meta : List (String × α)) : Nat → List (Chunk α) → Prop
  | _, [] => True
  | i, ch :: rest =>
      (ch.content ≠ [] ∧ (∃ c ∈ ch.content, isPySpace c = false) ∧
        ch.metadata = mergeMeta meta i) ∧
      chunksOkFrom meta (i + 1) rest

/-! ## RAGRetriever (src/rag/retrieval/retriever.py) -/

/-- A stored document (`Document` dataclass of the vector store); its
metadata values relevant here (`source`, `title`) are strings. -/
structure Document where
  id : String
  content : String
  metadata : List (String × String)
deriving DecidableEq

/-- Python `d.get(k, default)` on a string-valued dict. -/
def dictGetD (d : List (String × String)) (k dflt : String) : String :=
  match d.lookup k with
  | some v => v
  | none => dflt

/-- `RetrievalResult` dataclass. -/
structure RetrievalResult where
  documents : List Document
  scores : List ℝ
  query : String
  collection : String

/-- The distance-to-similarity conversion `1.0 / (1.0 + d)` applied to
every returned distance in `RAGRetriever.retrieve`. -/
noncomputable def score (d : ℝ) : ℝ := 1 / (1 + d)

/-- The rendered block for document `doc` at 0-based position `i`:
`f"{header}\n{content}\n"` with
`header = f"[Source {i + 1}: {title or source}]"`. -/
def sectionOf (i : Nat) (doc : Document) : String :=
  let source := dictGetD doc.metadata "source" "Unknown"
  let title := dictGetD doc.metadata "title" ""
  let header := "[Source " ++ toString (i + 1) ++ ": " ++
    (if title = "" then source else title) ++ "]"
  header ++ "\n" ++ doc.content ++ "\n"

/-- The accumulation loop of `format_context`: append whole blocks while
`current_length + len(section) <= max_length`, and `break` at the first
block that would overflow. -/
def formatContextGo (maxLen : Int) : List Document → Nat → Int → List String → List String
  | [], _, _, parts => parts
  | d :: ds, i, curLen, parts =>
      let sec := sectionOf i d
      if curLen + (sec.length : Int) > maxLen then parts
      else formatContextGo maxLen ds (i + 1) (curLen + (sec.length : Int)) (parts ++ [sec])

/-- Python `sep.join(parts)`. -/
def pyJoin (sep : String) : List String → String
  | [] => ""
  | [x] => x
  | x :: y :: rest => x ++ sep ++ pyJoin sep (y :: rest)

/-- `RAGRetriever.format_context` (the Python default is
`max_length=3000`): `"\n".join(context_parts)`. -/
def format_context (r : RetrievalResult) (maxLen : Int) : String :=
  pyJoin "\n" (formatContextGo maxLen r.documents 0 0 [])

/-- All blocks of a document list starting at position `i`, in document
order. -/
def sectionsFrom : List Document → Nat → List String
  | [], _ => []
  | d :: ds, i => sectionOf i d :: sectionsFrom ds (i + 1)

/-- Total character count of a list of block strings. -/
def sumLens (l : List String) : Nat := (l.map String.length).sum

/-! ## Registry (src/core/registry.py) -/

/-- `DuplicateRegistrationError(registry_name, item_name)`. -/
structure DuplicateRegistrationError where
  registry_name : String
  item_name : String
deriving DecidableEq

/-- Python dict assignment `d[k] = v`: update in place when the key
exists, append otherwise. -/
def dictSet [DecidableEq κ] (d : List (κ × β)) (k : κ) (v : β) : List (κ × β) :=
  if (d.lookup k).isSome then d.map (fun p => if p.1 = k then (k, v) else p)
  else d ++ [(k, v)]

/-- `set.add` on a category's name set (membership-based, order
irrelevant for lookups). -/
def setAdd (s : List String) (x : String) : List String :=
  if x ∈ s then s else s ++ [x]

/-- The `Registry` state: `_items`, `_metadata` (user metadata plus the
`category` key) and `_categories`.  The `_instances` cache only matters
to `get_instance`, which no claim touches; it is carried untouched. -/
structure Registry (C : Type) where
  name : String
  items : List (String × C)
  metadata : List (String × List (String × String))
  categories : List (String × List String)

/-- `Registry.add(name, cls, category, metadata, replace)`: raise
`DuplicateRegistrationError` when the name exists and `replace` was not
requested, otherwise store the mapping, its metadata (with the category
tag) and the category membership. -/
def Registry.add (r : Registry C) (name : String) (cls : C) (category : String)
    (md : Option (List (String × String))) (replace : Bool) :
    Except DuplicateRegistrationError (Registry C) :=
  if (r.items.lookup name).isSome ∧ ¬replace then
    .error ⟨r.name, name⟩
  else
    .ok { r with
      items := dictSet r.items name cls
      metadata := dictSet r.metadata name (dictSet (md.getD []) "category" category)
      categories := dictSet r.categories category
        (setAdd ((r.categories.lookup category).getD []) name) }

/-- `Registry.get(name)`. -/
def Registry.get (r : Registry C) (name : String) : Option C :=
  r.items.lookup name

/-! ## EventBus (src/core/events.py) -/

/-- One Python stable-sort insertion step for descending priority: the new
element goes after every element of priority at least its own. -/
def insertDesc (x : Int × H) : List (Int × H) → List (Int × H)
  | [] => [x]
  | y :: ys => if x.1 ≤ y.1 then y :: insertDesc x ys else x :: y :: ys

/-- The contract of Python's stable `list.sort(key=lambda x: -x[0])`:
descending by priority, ties kept in original order. -/
def pySortDesc (l : List (Int × H)) : List (Int × H) :=
  l.foldl (fun acc x => insertDesc x acc) []

/-- The `EventBus` handler state: `_handlers` (a dict from event type to a
priority-sorted handler list) and `_wildcard_handlers`.  Handlers are
identified abstractly by `H`; the bounded `_history` buffer plays no role
in dispatch ordering and is not modelled here. -/
structure EventBus (ET H : Type) where
  handlers : List (ET × List (Int × H))
  wildcard_handlers : List (Int × H)

/-- The empty bus (`EventBus.__init__`). -/
def EventBus.empty : EventBus ET H := ⟨[], []⟩

/-- `EventBus.subscribe(event_type, handler, priority)`: append the
handler to the concrete list (or the wildcard list for `None`), then
re-sort that list stably by descending priority. -/
def EventBus.subscribe [DecidableEq ET] (bus : EventBus ET H) (event_type : Option ET)
    (handler : H) (priority : Int) : EventBus ET H :=
  match event_type with
  | none =>
      { bus with wildcard_handlers := pySortDesc (bus.wildcard_handlers ++ [(priority, handler)]) }
  | some et =>
      let cur := (bus.handlers.lookup et).getD []
      { bus with handlers := dictSet bus.handlers et (pySortDesc (cur ++ [(priority, handler)])) }

/-- The `all_handlers` ordering computed inside `EventBus.publish`:
`sorted(handlers + self._wildcard_handlers, key=lambda x: -x[0])`.
Handlers are then invoked sequentially in exactly this order (a raising
handler is caught and does not interrupt delivery). -/
def EventBus.publishOrder [DecidableEq ET] (bus : EventBus ET H) (et : ET) : List (Int × H) :=
  pySortDesc ((bus.handlers.lookup et).getD [] ++ bus.wildcard_handlers)

/-- One subscription record, for describing a whole subscription history. -/
structure Sub (ET H : Type) where
  etype : Option ET
  priority : Int
  handler : H

/-- The bus obtained by performing a list of subscriptions in order on a
fresh bus. -/
def busOf [DecidableEq ET] (subs : List (Sub ET H)) : EventBus ET H :=
  subs.foldl (fun b s => b.subscribe s.etype s.handler s.priority) EventBus.empty

/-- Descending-priority sortedness of a handler list. -/
def SortedDesc (l : List (Int × H)) : Prop :=
  l.Pairwise (fun a b => b.1 ≤ a.1)

/-- The `(priority, handler)` pairs of the subscriptions for the concrete
event type `et`, in subscription order. -/
def concreteSubs [DecidableEq ET] (subs : List (Sub ET H)) (et : ET) : List (Int × H) :=
  (subs.filter (fun s => decide (s.etype = some et))).map (fun s => (s.priority, s.handler))

/-- The `(priority, handler)` pairs of the wildcard subscriptions, in
subscription order. -/
def wildcardSubs (subs : List (Sub ET H)) : List (Int × H) :=
  (subs.filter (fun s => s.etype.isNone)).map (fun s => (s.priority, s.handler))

/-- The concrete handler list the bus holds for an event type. -/
def EventBus.concreteList [DecidableEq ET] (bus : EventBus ET H) (et : ET) : List (Int × H) :=
  (bus.handlers.lookup et).getD []

/-! ## Python runtime values for the task/skill layer -/

/-- The Python values flowing through skill parameters and task outputs in
this codebase: strings, integers, booleans, `None`, lists and
string-keyed dicts. -/
inductive PyVal where
  | vstr : String → PyVal
  | vint : Int → PyVal
  | vbool : Bool → PyVal
  | vnone : PyVal
  | vlist : List PyVal → PyVal
  | vdict : List (String × PyVal) → PyVal

/-- `value is None`. -/
def PyVal.isNone : PyVal → Bool
  | .vnone => true
  | _ => false

/-- Python truthiness of a value. -/
def pyTruthy : PyVal → Bool
  | .vstr s => s ≠ ""
  | .vint n => n ≠ 0
  | .vbool b => b
  | .vnone => false
  | .vlist l => !l.isEmpty
  | .vdict d => !d.isEmpty

/-- The declared parameter types occurring in the skills of this
repository. -/
inductive PyType where
  | tstr
  | tint
  | tbool
  | tlist
  | tdict
deriving DecidableEq

/-- Python `isinstance(value, t)` (note `bool` is a subclass of `int`). -/
def isInst : PyVal → PyType → Bool
  | .vstr _, .tstr => true
  | .vint _, .tint => true
  | .vbool _, .tbool => true
  | .vbool _, .tint => true
  | .vlist _, .tlist => true
  | .vdict _, .tdict => true
  | _, _ => false

/-- `type.__name__` as interpolated into validation messages. -/
def PyType.pyName : PyType → String
  | .tstr => "str"
  | .tint => "int"
  | .tbool => "bool"
  | .tlist => "list"
  | .tdict => "dict"

/-- Python dict `d.get(k, default)` over `PyVal` dict entries. -/
def pvGetD (d : List (String × PyVal)) (k : String) (dflt : PyVal) : PyVal :=
  (d.lookup k).getD dflt

/-- Python dict assignment `d[k] = v` over `PyVal` entries (lookup
semantics of `{**d, k: v}`). -/
def pvSet (d : List (String × PyVal)) (k : String) (v : PyVal) : List (String × PyVal) :=
  (d.filter (fun p => p.1 != k)) ++ [(k, v)]

/-- Lookup-faithful model of `{**a, **b}`: keys of `b` win. -/
def pvMerge (a b : List (String × PyVal)) : List (String × PyVal) :=
  (a.filter (fun p => (b.lookup p.1).isNone)) ++ b

/-! ## Skill execution (src/skills/base.py, src/interfaces/skill_interface.py) -/

/-- `SkillStatus` enum. -/
inductive SkillStatus where
  | PENDING
  | RUNNING
  | COMPLETED
  | FAILED
  | SKIPPED
deriving DecidableEq

/-- `SkillParameter` dataclass (its Python defaults are
`description=""`, `required=True`, `default=None`). -/
structure SkillParameter where
  name : String
  param_type : PyType
  description : String
  required : Bool
  default : PyVal

/-- `SkillContext` dataclass (the uuid `execution_id` and timestamps are
abstract strings/ignored). -/
structure SkillContext where
  params : List (String × PyVal)
  execution_id : String
  parent_task_id : Option String
  agent_name : Option String
  shared_state : List (String × PyVal)

/-- `SkillContext.get(key)`: `params.get(key, None)`. -/
def SkillContext.get (ctx : SkillContext) (k : String) : PyVal :=
  (ctx.params.lookup k).getD .vnone

/-- The `SkillContext` that `BaseAgent.execute_skill` builds when it is
given parameters (`SkillContext(params=params, agent_name=self.name)`). -/
def skillCtxOf (agentName : String) (params : List (String × PyVal))
    (executionId : String) : SkillContext :=
  { params := params, execution_id := executionId, parent_task_id := none,
    agent_name := some agentName, shared_state := [] }

/-- `SkillResult` dataclass. -/
structure SkillResult where
  skill_name : String
  success : Bool
  status : SkillStatus
  output : PyVal
  error : Option String
  execution_time : ℚ

/-- The error message appended by `BaseSkill.validate` for a missing
required parameter. -/
def missingMsg (name : String) : String :=
  "Missing required parameter: " ++ name

/-- The error message appended by `BaseSkill.validate` for a type
mismatch. -/
def wrongTypeMsg (name : String) (t : PyType) : String :=
  "Parameter '" ++ name ++ "' must be of type " ++ t.pyName

/-- The error accumulation of `BaseSkill.validate`: a required parameter
whose value is `None` is reported missing (and the type check is skipped
by `continue`); a present value of the wrong runtime type is reported as
a type error; errors accumulate across all declared parameters. -/
def validateErrors (params : List SkillParameter) (ctx : SkillContext) : List String :=
  params.foldl
    (fun errors param =>
      let value := ctx.get param.name
      if param.required && value.isNone then
        errors ++ [missingMsg param.name]
      else if !value.isNone && !isInst value param.param_type then
        errors ++ [wrongTypeMsg param.name param.param_type]
      else errors)
    []

/-- `BaseSkill.validate(context)` returns `(len(errors) == 0, errors)`. -/
def BaseSkill.validate (params : List SkillParameter) (ctx : SkillContext) :
    Bool × List String :=
  let errors := validateErrors params ctx
  (errors.length == 0, errors)

/-- Lifecycle event tags (the `EventType` enum members that the execution
wrappers publish). -/
inductive LifecycleEvent where
  | AGENT_STARTED
  | AGENT_COMPLETED
  | AGENT_FAILED
  | SKILL_STARTED
  | SKILL_COMPLETED
  | SKILL_FAILED
  | PIPELINE_STARTED
  | PIPELINE_STAGE_STARTED
  | PIPELINE_STAGE_COMPLETED
  | PIPELINE_COMPLETED
  | PIPELINE_FAILED
deriving DecidableEq

/-- A skill as seen by the execution wrapper: its declared parameters and
its `_execute` logic, which may raise (`Except.error` carries the Python
exception message).  The `_pre_execute`/`_post_execute` hooks of
`BaseSkill` are no-ops. -/
structure Skill where
  name : String
  parameters : List SkillParameter
  logic : SkillContext → Except String SkillResult

/-- The outcome of `BaseSkill.execute`: the returned result (this wrapper
never raises), the published lifecycle events, and whether the skill's
logic body was entered. -/
structure SkillExecOut where
  result : SkillResult
  events : List LifecycleEvent
  logicEntered : Bool

/-- `BaseSkill.execute(context)`: publish `SKILL_STARTED`, run the logic;
on normal return stamp the elapsed time and publish `SKILL_COMPLETED`; on
an uncaught error return a failed `SkillResult` (status FAILED, the error
message, the elapsed time) and publish `SKILL_FAILED` — never raise.
`elapsed` stands for `time.time() - start_time`. -/
def BaseSkill.execute (sk : Skill) (ctx : SkillContext) (elapsed : ℚ) : SkillExecOut :=
  match sk.logic ctx with
  | .ok r =>
      { result := { r with execution_time := elapsed }
        events := [.SKILL_STARTED, .SKILL_COMPLETED]
        logicEntered := true }
  | .error e =>
      let failed : SkillResult :=
        { skill_name := sk.name, success := false, status := .FAILED,
          output := .vnone, error := some e, execution_time := elapsed }
      { result := failed
        events := [.SKILL_STARTED, .SKILL_FAILED]
        logicEntered := true }

/-- `BaseAgent.execute_skill(skill_name, params)` for a skill held by the
agent: build the `SkillContext`, validate it against the skill's declared
parameters, and on any validation error return a failed `SkillResult`
(status left at its dataclass default COMPLETED, error
`"Validation failed: " + ", ".join(errors)`) without invoking the skill;
otherwise run `BaseSkill.execute`. -/
def BaseAgent.execute_skill (agentName : String) (sk : Skill)
    (params : List (String × PyVal)) (executionId : String) (elapsed : ℚ) : SkillExecOut :=
  let ctx := skillCtxOf agentName params executionId
  let v := BaseSkill.validate sk.parameters ctx
  if v.1 then BaseSkill.execute sk ctx elapsed
  else
    let failed : SkillResult :=
      { skill_name := sk.name, success := false, status := .COMPLETED,
        output := .vnone,
        error := some ("Validation failed: " ++ String.intercalate ", " v.2),
        execution_time := 0 }
    { result := failed
      events := []
      logicEntered := false }

/-- A parameter violation in a context, exactly as `BaseSkill.validate`
detects it. -/
def violates (param : SkillParameter) (ctx : SkillContext) : Prop :=
  (param.required = true ∧ (ctx.get param.name).isNone = true) ∨
    ((ctx.get param.name).isNone = false ∧ isInst (ctx.get param.name) param.param_type = false)

/-- The error messages a single declared parameter contributes during
validation. -/
def msgsFor (ctx : SkillContext) (param : SkillParameter) : List String :=
  let value := ctx.get param.name
  if param.required && value.isNone then [missingMsg param.name]
  else if !value.isNone && !isInst value param.param_type then
    [wrongTypeMsg param.name param.param_type]
  else []

/-! ## Agent execution (src/agents/base/agent.py) -/

/-- `TaskStatus` enum. -/
inductive TaskStatus where
  | PENDING
  | IN_PROGRESS
  | COMPLETED
  | FAILED
  | CANCELLED
deriving DecidableEq

/-- `Task` dataclass (timestamps are rationals from an abstract clock;
the uuid `task_id` is an abstract string). -/
structure Task where
  description : String
  task_type : String
  task_id : String
  status : TaskStatus
  metadata : List (String × PyVal)
  started_at : Option ℚ
  completed_at : Option ℚ

/-- `TaskResult` dataclass. -/
structure TaskResult where
  task_id : String
  success : Bool
  output : PyVal
  error : Option String
  execution_time : ℚ

/-- `AgentExecutionError(agent_name, task_id, reason)`. -/
structure AgentExecutionError where
  agent_name : String
  task_id : String
  reason : String
deriving DecidableEq

/-- The formatted message of `AgentExecutionError` (src/core/exceptions.py). -/
def AgentExecutionError.message (e : AgentExecutionError) : String :=
  "Agent '" ++ e.agent_name ++ "' failed to execute task '" ++ e.task_id ++ "': " ++ e.reason

/-- The outcome of `BaseAgent.execute`: the returned result or raised
wrapped error, the task's final state, the failure `TaskResult`
constructed in the except branch (if taken), and the published events. -/
structure AgentExecOut where
  outcome : Except AgentExecutionError TaskResult
  task : Task
  failureResult : Option TaskResult
  events : List LifecycleEvent

/-- `BaseAgent.execute(task)` with the default no-op hooks: mark the task
IN_PROGRESS, stamp the start time, publish `AGENT_STARTED`, run the task
logic; on normal return set COMPLETED/FAILED from the result's success
flag, stamp completion time and elapsed duration, publish
`AGENT_COMPLETED` and return the result; on an uncaught error set FAILED,
stamp completion time, construct a failure `TaskResult` with the error
message and elapsed time, publish `AGENT_FAILED` and raise
`AgentExecutionError(name, task_id, reason)`.  `t0`/`t1` stand for the
wall-clock readings at entry and at completion. -/
def BaseAgent.execute (name : String) (logic : Task → Except String TaskResult)
    (task : Task) (t0 t1 : ℚ) : AgentExecOut :=
  let task1 := { task with status := TaskStatus.IN_PROGRESS, started_at := some t0 }
  match logic task1 with
  | .ok r =>
      let task2 := { task1 with
        status := if r.success then TaskStatus.COMPLETED else TaskStatus.FAILED,
        completed_at := some t1 }
      { outcome := .ok { r with execution_time := t1 - t0 }
        task := task2
        failureResult := none
        events := [.AGENT_STARTED, .AGENT_COMPLETED] }
  | .error e =>
      let task2 := { task1 with status := TaskStatus.FAILED, completed_at := some t1 }
      let fr : TaskResult :=
        { task_id := task.task_id, success := false, output := .vnone,
          error := some e, execution_time := t1 - t0 }
      { outcome := .error ⟨name, task.task_id, e⟩
        task := task2
        failureResult := some fr
        events := [.AGENT_STARTED, .AGENT_FAILED] }

/-! ## ContentPipeline (src/orchestrator/content_pipeline.py,
src/orchestrator/orchestrator.py) -/

/-- The behaviour of the orchestrator's agent table after
`initialize()`: each agent name maps to that agent's task logic (the
`_execute_task` body, which may raise); `none` models an unregistered
name. -/
def AgentOracle : Type := String → Option (Task → Except String TaskResult)

/-- The exceptions `create_content` can propagate: a wrapped
`AgentExecutionError` raised by `BaseAgent.execute`, the
`Exception(f"Stage '{name}' failed: {error}")` raised by
`_execute_stage`, or a runtime error from the final assembly. -/
inductive PipelineError where
  | agentError : AgentExecutionError → PipelineError
  | stageFailed : String → String → PipelineError
  | pyError : String → PipelineError
deriving DecidableEq

/-- `str(x)` for an optional error string (`None` prints as "None"). -/
def pyOptStr : Option String → String
  | some s => s
  | none => "None"

/-- A fresh `Task` as the pipeline builds one. -/
def mkTask (description task_type task_id : String) (metadata : List (String × PyVal)) : Task :=
  { description := description, task_type := task_type, task_id := task_id,
    status := .PENDING, metadata := metadata, started_at := none, completed_at := none }

/-- `Orchestrator.execute_task(agent_name, task)`: a missing agent yields
a failed `TaskResult` without invoking anything; otherwise the named
agent's `execute` runs.  Alongside the outcome it reports the agent
invocations made (name with outcome) and the published events. -/
def Orchestrator.execute_task (agents : AgentOracle) (name : String) (task : Task)
    (t0 t1 : ℚ) :
    Except AgentExecutionError TaskResult ×
      List (String × Except AgentExecutionError TaskResult) × List LifecycleEvent :=
  match agents name with
  | none =>
      let notFound : TaskResult :=
        { task_id := task.task_id, success := false, output := .vnone,
          error := some ("Agent '" ++ name ++ "' not found"), execution_time := 0 }
      (.ok notFound, [], [])
  | some logic =>
      let out := BaseAgent.execute name logic task t0 t1
      (out.outcome, [(name, out.outcome)], out.events)

/-- `ContentPipeline._execute_stage(agent_name, task)`: publish
stage-started, dispatch to the orchestrator, publish stage-completed (an
agent raise propagates before that publish), and raise
`Exception(f"Stage '{agent_name}' failed: {result.error}")` when the
result's success flag is false. -/
def ContentPipeline.execute_stage (agents : AgentOracle) (name : String) (task : Task)
    (t0 t1 : ℚ) :
    Except PipelineError TaskResult ×
      List (String × Except AgentExecutionError TaskResult) × List LifecycleEvent :=
  let r := Orchestrator.execute_task agents name task t0 t1
  match r.1 with
  | .error e => (.error (.agentError e), r.2.1, .PIPELINE_STAGE_STARTED :: r.2.2)
  | .ok res =>
      let evs := .PIPELINE_STAGE_STARTED :: r.2.2 ++ [.PIPELINE_STAGE_COMPLETED]
      if res.success then (.ok res, r.2.1, evs)
      else (.error (.stageFailed name (pyOptStr res.error)), r.2.1, evs)

/-- Single-pass scanner for Python `str.split()` (split on whitespace
runs, no empty pieces). -/
def wsScan : Option (List Char) → List Char → List (List Char)
  | none, [] => []
  | none, c :: rest =>
      if isPySpace c then wsScan none rest else wsScan (some [c]) rest
  | some acc, [] => [acc.reverse]
  | some acc, c :: rest =>
      if isPySpace c then acc.reverse :: wsScan none rest
      else wsScan (some (c :: acc)) rest

/-- Python `s.split()`. -/
def pySplitWs (s : List Char) : List (List Char) := wsScan none s

/-- `value or {}`. -/
def pyOrEmptyDict (v : PyVal) : PyVal := if pyTruthy v then v else .vdict []

/-- Python `x.get(k, default)` on a value expected to be a dict: raises
`AttributeError` on anything else. -/
def pyDictGetE (v : PyVal) (k : String) (dflt : PyVal) : Except String PyVal :=
  match v with
  | .vdict d => .ok (pvGetD d k dflt)
  | _ => .error "AttributeError: get"

/-- Iterating a value as a Python list. -/
def pyAsList : PyVal → Except String (List PyVal)
  | .vlist l => .ok l
  | _ => .error "TypeError: not iterable"

/-- Using a value as a Python str (`.split()` would raise otherwise). -/
def pyAsStr : PyVal → Except String String
  | .vstr s => .ok s
  | _ => .error "AttributeError: split"

/-- `ContentResult` (the fields `create_content` assembles; values read
out of agent outputs stay `PyVal` since Python does not coerce them). -/
structure ContentResult where
  topic : String
  content : String
  keywords : List PyVal
  image_prompts : PyVal
  visual_suggestions : PyVal
  quality_review : PyVal
  approved : PyVal
  word_count : Nat
  pipeline_id : String

/-- The final-assembly block of `create_content` (lines 231-253): unwrap
each of the last four stages' outputs with `or {}`, read
`content`/`keywords`/`prompts`/`suggestions`/`review`/`approved` with
dict `get`s, truncate keywords to 10, and count words of the final
content with `str.split()`. -/
def assembleContentResult (topic pipelineId : String) (seoR qualR imgR visR : TaskResult) :
    Except String ContentResult := do
  let seo_output := pyOrEmptyDict seoR.output
  let quality_output := pyOrEmptyDict qualR.output
  let image_output := pyOrEmptyDict imgR.output
  let visual_output := pyOrEmptyDict visR.output
  let finalContentV ← pyDictGetE seo_output "content" (.vstr "")
  let keywordsData ← pyDictGetE seo_output "keywords" (.vdict [])
  let kwsV ← pyDictGetE keywordsData "keywords" (.vlist [])
  let kws ← pyAsList kwsV
  let keywords ← (kws.take 10).mapM (fun k => pyDictGetE k "keyword" (.vstr ""))
  let prompts ← pyDictGetE image_output "prompts" (.vstr "")
  let suggestions ← pyDictGetE visual_output "suggestions" (.vstr "")
  let review ← pyDictGetE quality_output "review" (.vstr "")
  let approved ← pyDictGetE quality_output "approved" (.vbool false)
  let finalContent ← pyAsStr finalContentV
  let cr : ContentResult :=
    { topic := topic, content := finalContent, keywords := keywords,
      image_prompts := prompts, visual_suggestions := suggestions,
      quality_review := review, approved := approved,
      word_count := (pySplitWs finalContent.data).length, pipeline_id := pipelineId }
  pure cr

/-- The outcome of one `create_content` run: the returned result or the
propagated exception, every agent invocation in order (name with the
agent's outcome), and the published events. -/
structure PipelineOut where
  result : Except PipelineError ContentResult
  trace : List (String × Except AgentExecutionError TaskResult)
  events : List LifecycleEvent

/-- The seven stage agent names in pipeline order. -/
def stageNames : List String :=
  ["research", "writer", "editor", "seo", "quality_reviewer", "image_prompt",
    "visual_suggestion"]

/-- `target_length or self.settings.content.default_target_length`
(Python `or`: a falsy 0 falls back to the default). -/
def pipelineTargetLength (target_length : Option Int) (dflt : Int) : Int :=
  match target_length with
  | some t => if t = 0 then dflt else t
  | none => dflt

/-- The pipeline-wide context
`{"topic": topic, "target_length": target_length, **(metadata or {})}`. -/
def pipelineCtx (topic : String) (tl : Int) (metadata : List (String × PyVal)) :
    List (String × PyVal) :=
  pvMerge [("topic", .vstr topic), ("target_length", .vint tl)] metadata

/-- An agent invocation record whose outcome, when it was a normal
return, was successful. -/
def entryOk (entry : String × Except AgentExecutionError TaskResult) : Prop :=
  ∀ r, entry.2 = Except.ok r → r.success = true

/-- The fail-fast shape of an invocation trace against a stage-name list:
invocations follow the stage order with no stage skipped or repeated, and
every invocation except possibly the final one returned a successful
result — an unsuccessful (or raising) invocation can only be the last. -/
def failFastTrace : List (String × Except AgentExecutionError TaskResult) → List String → Prop
  | [], _ => True
  | entry :: rest, name :: names =>
      entry.1 = name ∧ ((entryOk entry ∧ failFastTrace rest names) ∨ rest = [])
  | _ :: _, [] => False

/-- `ContentPipeline.create_content(topic, target_length, metadata)`:
publish `PIPELINE_STARTED`, build the pipeline context
`{"topic": ..., "target_length": ..., **metadata}` (a falsy
`target_length` falls back to the configured default), then run the seven
stages strictly in sequence, each stage's task metadata being the context
plus the previous stage's output under a stage key; any stage exception
publishes `PIPELINE_FAILED` and re-raises; on success the final result is
assembled and `PIPELINE_COMPLETED` published.  The uuids and the
wall-clock are abstracted into `pipelineId`, `taskIds` and `clock`;
`defaultTargetLength` and `minQualityScore` stand for the corresponding
settings. -/
def ContentPipeline.create_content (agents : AgentOracle) (topic : String)
    (target_length : Option Int) (metadata : List (String × PyVal))
    (defaultTargetLength : Int) (minQualityScore : PyVal)
    (pipelineId : String) (taskIds : Nat → String) (clock : Nat → ℚ) : PipelineOut :=
  let tl : Int := pipelineTargetLength target_length defaultTargetLength
  let ctx : List (String × PyVal) := pipelineCtx topic tl metadata
  let ev0 : List LifecycleEvent := [.PIPELINE_STARTED]
  let s1 := ContentPipeline.execute_stage agents "research"
    (mkTask topic "research" (taskIds 0) ctx) (clock 0) (clock 1)
  match s1.1 with
  | .error e => ⟨.error e, s1.2.1, ev0 ++ s1.2.2 ++ [.PIPELINE_FAILED]⟩
  | .ok researchR =>
    let tr1 := s1.2.1
    let ev1 := ev0 ++ s1.2.2
    let s2 := ContentPipeline.execute_stage agents "writer"
      (mkTask ("Write content about: " ++ topic) "write" (taskIds 1)
        (pvSet ctx "research" researchR.output)) (clock 2) (clock 3)
    match s2.1 with
    | .error e => ⟨.error e, tr1 ++ s2.2.1, ev1 ++ s2.2.2 ++ [.PIPELINE_FAILED]⟩
    | .ok writeR =>
      let tr2 := tr1 ++ s2.2.1
      let ev2 := ev1 ++ s2.2.2
      let s3 := ContentPipeline.execute_stage agents "editor"
        (mkTask ("Edit content about: " ++ topic) "edit" (taskIds 2)
          (pvSet ctx "draft" writeR.output)) (clock 4) (clock 5)
      match s3.1 with
      | .error e => ⟨.error e, tr2 ++ s3.2.1, ev2 ++ s3.2.2 ++ [.PIPELINE_FAILED]⟩
      | .ok editR =>
        let tr3 := tr2 ++ s3.2.1
        let ev3 := ev2 ++ s3.2.2
        let s4 := ContentPipeline.execute_stage agents "seo"
          (mkTask ("Optimize SEO for: " ++ topic) "optimize" (taskIds 3)
            (pvSet ctx "edited" editR.output)) (clock 6) (clock 7)
        match s4.1 with
        | .error e => ⟨.error e, tr3 ++ s4.2.1, ev3 ++ s4.2.2 ++ [.PIPELINE_FAILED]⟩
        | .ok seoR =>
          let tr4 := tr3 ++ s4.2.1
          let ev4 := ev3 ++ s4.2.2
          let s5 := ContentPipeline.execute_stage agents "quality_reviewer"
            (mkTask ("Review quality for: " ++ topic) "quality" (taskIds 4)
              (pvSet (pvSet ctx "seo" seoR.output) "min_quality_score" minQualityScore))
            (clock 8) (clock 9)
          match s5.1 with
          | .error e => ⟨.error e, tr4 ++ s5.2.1, ev4 ++ s5.2.2 ++ [.PIPELINE_FAILED]⟩
          | .ok qualR =>
            let tr5 := tr4 ++ s5.2.1
            let ev5 := ev4 ++ s5.2.2
            let s6 := ContentPipeline.execute_stage agents "image_prompt"
              (mkTask ("Generate image prompts for: " ++ topic) "image_prompt" (taskIds 5)
                (pvSet ctx "quality" qualR.output)) (clock 10) (clock 11)
            match s6.1 with
            | .error e => ⟨.error e, tr5 ++ s6.2.1, ev5 ++ s6.2.2 ++ [.PIPELINE_FAILED]⟩
            | .ok imgR =>
              let tr6 := tr5 ++ s6.2.1
              let ev6 := ev5 ++ s6.2.2
              let s7 := ContentPipeline.execute_stage agents "visual_suggestion"
                (mkTask ("Generate visual suggestions for: " ++ topic) "visual" (taskIds 6)
                  (pvSet (pvSet ctx "quality" qualR.output) "image_prompts" imgR.output))
                (clock 12) (clock 13)
              match s7.1 with
              | .error e => ⟨.error e, tr6 ++ s7.2.1, ev6 ++ s7.2.2 ++ [.PIPELINE_FAILED]⟩
              | .ok visR =>
                let tr7 := tr6 ++ s7.2.1
                let ev7 := ev6 ++ s7.2.2
                match assembleContentResult topic pipelineId seoR qualR imgR visR with
                | .error msg => ⟨.error (.pyError msg), tr7, ev7 ++ [.PIPELINE_FAILED]⟩
                | .ok cr => ⟨.ok cr, tr7, ev7 ++ [.PIPELINE_COMPLETED]⟩

/-! ## Helper lemmas about Python dicts -/

theorem lookup_map_setKey [DecidableEq κ] (d : List (κ × β)) (k : κ) (v : β) :
    (d.map (fun p => if p.1 = k then (k, v) else p)).lookup k =
      if (d.lookup k).isSome then some v else none := by
  induction d with
  | nil => simp
  | cons a tl ih =>
    obtain ⟨a1, a2⟩ := a
    simp only [List.map_cons]
    by_cases h : a1 = k
    · subst h
      rw [if_pos rfl]
      simp [List.lookup]
    · rw [if_neg h]
      have hk : (k == a1) = false := beq_eq_false_iff_ne.mpr (Ne.symm h)
      simp only [List.lookup, hk]
      exact ih

theorem lookup_append_right [DecidableEq κ] (d e : List (κ × β)) (k : κ)
    (h : d.lookup k = none) : (d ++ e).lookup k = e.lookup k := by
  induction d with
  | nil => simp
  | cons a tl ih =>
    obtain ⟨a1, a2⟩ := a
    simp only [List.cons_append, List.lookup] at *
    cases hb : (k == a1) with
    | true => rw [hb] at h; simp at h
    | false =>
      rw [hb] at h
      exact ih h

theorem dictSet_lookup_self [DecidableEq κ] (d : List (κ × β)) (k : κ) (v : β) :
    (dictSet d k v).lookup k = some v := by
  unfold dictSet
  by_cases h : (d.lookup k).isSome
  · rw [if_pos h, lookup_map_setKey, if_pos h]
  · rw [if_neg h, lookup_append_right]
    · simp [List.lookup]
    · exact Option.not_isSome_iff_eq_none.mp h

/-! ## C8: distance-to-similarity conversion -/

/-- C8: the conversion `score d = 1 / (1 + d)` used by
`RAGRetriever.retrieve` is strictly decreasing on non-negative distances,
and maps every `d ≥ 0` into `(0, 1]`. -/
theorem c8_score_strictly_decreasing_and_bounded :
    (∀ d1 d2 : ℝ, 0 ≤ d1 → d1 < d2 → score d2 < score d1) ∧
    (∀ d : ℝ, 0 ≤ d → 0 < score d ∧ score d ≤ 1) := by
  constructor
  · intro d1 d2 h0 hlt
    have h1 : (0 : ℝ) < 1 + d1 := by linarith
    have h2 : (1 : ℝ) + d1 < 1 + d2 := by linarith
    simpa only [score] using one_div_lt_one_div_of_lt h1 h2
  · intro d h0
    have h1 : (0 : ℝ) < 1 + d := by linarith
    constructor
    · simpa only [score] using one_div_pos.mpr h1
    · simp only [score]
      rw [div_le_one h1]
      linarith

/-- Witness for C8 at the concrete distances 0 and 1. -/
theorem c8_score_strictly_decreasing_and_bounded_witness :
    score 1 < score 0 ∧ 0 < score 1 ∧ score 1 ≤ 1 :=
  ⟨c8_score_strictly_decreasing_and_bounded.1 0 1 le_rfl one_pos,
    (c8_score_strictly_decreasing_and_bounded.2 1 zero_le_one).1,
    (c8_score_strictly_decreasing_and_bounded.2 1 zero_le_one).2⟩

/-! ## C9: registry duplicate registration -/

/-- C9: `Registry.add` on a name that is already registered fails with
`DuplicateRegistrationError` (leaving the mapping untouched, since the
raise happens before any mutation) unless replacement is requested; with
`replace=True` it always succeeds and a subsequent `get` of the name
returns the new class. -/
theorem c9_registry_duplicate_and_replace {C : Type} (r : Registry C) (name : String)
    (c0 cls : C) (category : String) (md : Option (List (String × String))) :
    (r.get name = some c0 → r.add name cls category md false = .error ⟨r.name, name⟩) ∧
    (∃ r', r.add name cls category md true = .ok r') ∧
    (∀ r', r.add name cls category md true = .ok r' → r'.get name = some cls) := by
  refine ⟨?_, ?_, ?_⟩
  · intro h
    unfold Registry.add
    rw [if_pos]
    exact ⟨by simpa [Registry.get] using congrArg Option.isSome h, by simp⟩
  · unfold Registry.add
    rw [if_neg (by simp)]
    exact ⟨_, rfl⟩
  · intro r' h
    unfold Registry.add at h
    rw [if_neg (by simp)] at h
    have h2 := congrArg Registry.items (Except.ok.inj h)
    simp only at h2
    rw [Registry.get, ← h2, dictSet_lookup_self]

/-- Witness for C9 on a concrete one-entry registry. -/
theorem c9_registry_duplicate_and_replace_witness :
    (Registry.add ⟨"Agent", [("research", 1)], [], []⟩ "research" (2 : Nat) "default" none false
        = .error ⟨"Agent", "research"⟩) ∧
    (∀ r', Registry.add ⟨"Agent", [("research", 1)], [], []⟩ "research" (2 : Nat) "default" none true
        = .ok r' → r'.get "research" = some 2) :=
  ⟨(c9_registry_duplicate_and_replace ⟨"Agent", [("research", 1)], [], []⟩ "research" 1 2
      "default" none).1 (by decide),
   (c9_registry_duplicate_and_replace ⟨"Agent", [("research", 1)], [], []⟩ "research" 1 2
      "default" none).2.2⟩

/-! ## C3: agent vs skill error channels -/

/-- C3: an uncaught error from the agent's task logic makes
`BaseAgent.execute` mark the task FAILED, stamp the completion time,
construct a failure `TaskResult` with the error message and elapsed time,
publish `AGENT_FAILED`, and raise `AgentExecutionError(agent, task_id,
reason)`; an uncaught error from a skill's logic makes
`BaseSkill.execute` return a failed `SkillResult` (status FAILED, error
message, elapsed time, `SKILL_FAILED` published) instead of raising. -/
theorem c3_error_channels (name : String) (logic : Task → Except String TaskResult)
    (task : Task) (t0 t1 : ℚ) (e : String) (sk : Skill) (ctx : SkillContext)
    (elapsed : ℚ) (e' : String) :
    (logic { task with status := TaskStatus.IN_PROGRESS, started_at := some t0 } =
        .error e →
      (BaseAgent.execute name logic task t0 t1).outcome =
          .error ⟨name, task.task_id, e⟩ ∧
      (BaseAgent.execute name logic task t0 t1).task.status = TaskStatus.FAILED ∧
      (BaseAgent.execute name logic task t0 t1).task.completed_at = some t1 ∧
      (BaseAgent.execute name logic task t0 t1).failureResult =
        some ⟨task.task_id, false, .vnone, some e, t1 - t0⟩ ∧
      (BaseAgent.execute name logic task t0 t1).events =
        [.AGENT_STARTED, .AGENT_FAILED]) ∧
    (sk.logic ctx = .error e' →
      (BaseSkill.execute sk ctx elapsed).result.success = false ∧
      (BaseSkill.execute sk ctx elapsed).result.status = SkillStatus.FAILED ∧
      (BaseSkill.execute sk ctx elapsed).result.error = some e' ∧
      (BaseSkill.execute sk ctx elapsed).result.execution_time = elapsed ∧
      (BaseSkill.execute sk ctx elapsed).events = [.SKILL_STARTED, .SKILL_FAILED]) := by
  constructor
  · intro h
    simp [BaseAgent.execute, h]
  · intro h
    simp [BaseSkill.execute, h]

/-- Witness for C3 with a concrete raising agent logic and a concrete
raising skill logic. -/
theorem c3_error_channels_witness :
    (BaseAgent.execute "research" (fun _ => Except.error "boom")
        (mkTask "d" "research" "t1" []) 0 1).outcome =
      Except.error ⟨"research", "t1", "boom"⟩ ∧
    (BaseSkill.execute ⟨"summarize", [], fun _ => Except.error "bad"⟩
        (skillCtxOf "research" [] "e1") 0).result.success = false :=
  ⟨((c3_error_channels "research" (fun _ => Except.error "boom")
      (mkTask "d" "research" "t1" []) 0 1 "boom"
      ⟨"summarize", [], fun _ => Except.error "bad"⟩
      (skillCtxOf "research" [] "e1") 0 "bad").1 rfl).1,
   ((c3_error_channels "research" (fun _ => Except.error "boom")
      (mkTask "d" "research" "t1" []) 0 1 "boom"
      ⟨"summarize", [], fun _ => Except.error "bad"⟩
      (skillCtxOf "research" [] "e1") 0 "bad").2 rfl).1⟩

/-! ## C2: skill parameter validation -/

theorem validate_foldl_init (ctx : SkillContext) (params : List SkillParameter) :
    ∀ init : List String,
      params.foldl
        (fun errors param =>
          let value := ctx.get param.name
          if param.required && value.isNone then errors ++ [missingMsg param.name]
          else if !value.isNone && !isInst value param.param_type then
            errors ++ [wrongTypeMsg param.name param.param_type]
          else errors)
        init = init ++ (params.map (msgsFor ctx)).flatten := by
  induction params with
  | nil => intro init; simp
  | cons p ps ih =>
    intro init
    simp only [List.foldl_cons, List.map_cons, List.flatten_cons]
    rw [ih]
    unfold msgsFor
    by_cases h1 : (p.required && (ctx.get p.name).isNone) = true
    · simp [h1, List.append_assoc]
    · by_cases h2 : (!(ctx.get p.name).isNone && !isInst (ctx.get p.name) p.param_type) = true
      · simp [h1, h2, List.append_assoc]
      · simp [h1, h2]

theorem validateErrors_eq_flatten (params : List SkillParameter) (ctx : SkillContext) :
    validateErrors params ctx = (params.map (msgsFor ctx)).flatten := by
  unfold validateErrors
  have h := validate_foldl_init ctx params []
  rwa [List.nil_append] at h

theorem msgsFor_ne_nil_iff (ctx : SkillContext) (p : SkillParameter) :
    msgsFor ctx p ≠ [] ↔ violates p ctx := by
  unfold msgsFor violates
  cases hr : p.required <;> cases hn : (ctx.get p.name).isNone <;>
    cases hi : isInst (ctx.get p.name) p.param_type <;> simp [hr, hn, hi]

/-- C2: when any declared parameter of a skill is violated (required but
absent, or present with the wrong runtime type) in the context built by
`BaseAgent.execute_skill`, the call returns a failed `SkillResult` whose
error is `"Validation failed: "` followed by the joined violation
messages (each naming its parameter), the skill's logic is never entered,
nothing is raised, and every violating parameter contributes its message
to the single accumulated error list. -/
theorem c2_skill_validation (agentName : String) (sk : Skill)
    (params : List (String × PyVal)) (eid : String) (elapsed : ℚ)
    (h : ∃ p ∈ sk.parameters, violates p (skillCtxOf agentName params eid)) :
    (BaseAgent.execute_skill agentName sk params eid elapsed).result.success = false ∧
    (BaseAgent.execute_skill agentName sk params eid elapsed).logicEntered = false ∧
    (BaseAgent.execute_skill agentName sk params eid elapsed).result.error =
      some ("Validation failed: " ++ String.intercalate ", "
        (validateErrors sk.parameters (skillCtxOf agentName params eid))) ∧
    validateErrors sk.parameters (skillCtxOf agentName params eid) ≠ [] ∧
    (∀ p ∈ sk.parameters, violates p (skillCtxOf agentName params eid) →
      msgsFor (skillCtxOf agentName params eid) p ≠ [] ∧
      ∀ m ∈ msgsFor (skillCtxOf agentName params eid) p,
        m ∈ validateErrors sk.parameters (skillCtxOf agentName params eid)) := by
  have hne : validateErrors sk.parameters (skillCtxOf agentName params eid) ≠ [] := by
    obtain ⟨p, hp, hv⟩ := h
    have hm : msgsFor (skillCtxOf agentName params eid) p ≠ [] :=
      (msgsFor_ne_nil_iff _ _).mpr hv
    obtain ⟨m, hmem⟩ := List.exists_mem_of_ne_nil _ hm
    have : m ∈ validateErrors sk.parameters (skillCtxOf agentName params eid) := by
      rw [validateErrors_eq_flatten]
      exact List.mem_flatten.mpr ⟨_, List.mem_map_of_mem _ hp, hmem⟩
    exact List.ne_nil_of_mem this
  refine ⟨?_, ?_, ?_, hne, ?_⟩
  · simp [BaseAgent.execute_skill, BaseSkill.validate, hne]
  · simp [BaseAgent.execute_skill, BaseSkill.validate, hne]
  · simp [BaseAgent.execute_skill, BaseSkill.validate, hne]
  · intro p hp hviol
    refine ⟨(msgsFor_ne_nil_iff _ _).mpr hviol, fun m hm => ?_⟩
    rw [validateErrors_eq_flatten]
    exact List.mem_flatten.mpr ⟨_, List.mem_map_of_mem _ hp, hm⟩

/-- Witness for C2: a skill declaring a required `text : str` parameter,
invoked with no parameters at all. -/
theorem c2_skill_validation_witness :
    (BaseAgent.execute_skill "writer"
        ⟨"generate", [⟨"text", .tstr, "", true, .vnone⟩],
          fun _ => .ok ⟨"generate", true, .COMPLETED, .vnone, none, 0⟩⟩
        [] "e1" 0).result.success = false ∧
    (BaseAgent.execute_skill "writer"
        ⟨"generate", [⟨"text", .tstr, "", true, .vnone⟩],
          fun _ => .ok ⟨"generate", true, .COMPLETED, .vnone, none, 0⟩⟩
        [] "e1" 0).logicEntered = false :=
  ⟨(c2_skill_validation "writer"
      ⟨"generate", [⟨"text", .tstr, "", true, .vnone⟩],
        fun _ => .ok ⟨"generate", true, .COMPLETED, .vnone, none, 0⟩⟩
      [] "e1" 0 ⟨⟨"text", .tstr, "", true, .vnone⟩, List.mem_singleton.mpr rfl,
        Or.inl ⟨rfl, rfl⟩⟩).1,
   (c2_skill_validation "writer"
      ⟨"generate", [⟨"text", .tstr, "", true, .vnone⟩],
        fun _ => .ok ⟨"generate", true, .COMPLETED, .vnone, none, 0⟩⟩
      [] "e1" 0 ⟨⟨"text", .tstr, "", true, .vnone⟩, List.mem_singleton.mpr rfl,
        Or.inl ⟨rfl, rfl⟩⟩).2.1⟩

/-! ## C7: format_context truncation -/

theorem sumLens_append (a b : List String) : sumLens (a ++ b) = sumLens a + sumLens b := by
  simp [sumLens]

theorem pyJoin_length_succ :
    ∀ parts : List String, parts ≠ [] →
      (pyJoin "\n" parts).length + 1 = sumLens parts + parts.length
  | [], h => absurd rfl h
  | [x], _ => by simp [pyJoin, sumLens]
  | x :: y :: rest, _ => by
    have ih := pyJoin_length_succ (y :: rest) (by simp)
    have hsep : ("\n" : String).length = 1 := rfl
    simp only [pyJoin, String.length_append, sumLens, List.map_cons, List.sum_cons,
      List.length_cons, hsep] at *
    omega

theorem formatContextGo_spec (maxLen : Int) :
    ∀ (ds : List Document) (i : Nat) (parts : List String),
      (parts ≠ [] → (sumLens parts : Int) ≤ maxLen) →
      ∃ k, formatContextGo maxLen ds i (sumLens parts) parts =
          parts ++ (sectionsFrom ds i).take k ∧
        (formatContextGo maxLen ds i (sumLens parts) parts ≠ [] →
          (sumLens (formatContextGo maxLen ds i (sumLens parts) parts) : Int) ≤ maxLen) := by
  intro ds
  induction ds with
  | nil =>
    intro i parts hp
    exact ⟨0, by simp [formatContextGo], by simpa [formatContextGo] using hp⟩
  | cons d ds ih =>
    intro i parts hp
    by_cases hov : (sumLens parts : Int) + ((sectionOf i d).length : Int) > maxLen
    · refine ⟨0, ?_, ?_⟩
      · simp [formatContextGo, hov]
      · simpa [formatContextGo, hov] using hp
    · have hsum : sumLens (parts ++ [sectionOf i d]) =
          sumLens parts + (sectionOf i d).length := by
        rw [sumLens_append]
        simp [sumLens]
      have hcur : (sumLens (parts ++ [sectionOf i d]) : Int) ≤ maxLen := by
        rw [hsum]
        push_cast
        omega
      obtain ⟨k, hk1, hk2⟩ := ih (i + 1) (parts ++ [sectionOf i d]) (fun _ => hcur)
      have harg : (sumLens parts : Int) + ((sectionOf i d).length : Int) =
          (sumLens (parts ++ [sectionOf i d]) : Int) := by
        rw [hsum]
        push_cast
        ring
      refine ⟨k + 1, ?_, ?_⟩
      · simp only [formatContextGo]
        rw [if_neg hov, harg, hk1]
        simp [sectionsFrom, List.append_assoc]
      · simp only [formatContextGo]
        rw [if_neg hov, harg]
        exact hk2

/-- C7 (amended): `format_context` emits only whole
`[Source i: title-or-source]\n{content}\n` blocks, in document order,
dropping the first block whose addition would overflow together with all
later blocks; the cumulative length of the blocks themselves never
exceeds `maxLength`, but the joining newlines between blocks are not
counted, so the returned string can be up to `blocks - 1` characters
longer than `maxLength` (and no longer). -/
theorem c7_format_context_blocks (r : RetrievalResult) (maxLen : Int) :
    (∃ k, formatContextGo maxLen r.documents 0 0 [] = (sectionsFrom r.documents 0).take k) ∧
    (formatContextGo maxLen r.documents 0 0 [] = [] → format_context r maxLen = "") ∧
    (formatContextGo maxLen r.documents 0 0 [] ≠ [] →
      (sumLens (formatContextGo maxLen r.documents 0 0 []) : Int) ≤ maxLen ∧
      ((format_context r maxLen).length : Int) ≤
        maxLen + ((formatContextGo maxLen r.documents 0 0 []).length : Int) - 1) := by
  have h0 : ((sumLens [] : Nat) : Int) = (0 : Int) := by simp [sumLens]
  obtain ⟨k, hk1, hk2⟩ := formatContextGo_spec maxLen r.documents 0 [] (by simp)
  rw [h0] at hk1 hk2
  refine ⟨⟨k, by simpa using hk1⟩, ?_, ?_⟩
  · intro he
    simp [format_context, he, pyJoin]
  · intro hne
    refine ⟨hk2 hne, ?_⟩
    have hj := pyJoin_length_succ (formatContextGo maxLen r.documents 0 0 []) hne
    have hlen : 1 ≤ (formatContextGo maxLen r.documents 0 0 []).length :=
      List.length_pos.mpr hne
    have hsum := hk2 hne
    simp only [format_context]
    omega

/-- Witness for C7 on a one-document result under a generous limit. -/
theorem c7_format_context_blocks_witness :
    (sumLens (formatContextGo 100
        [⟨"d1", "hello", [("title", "t")]⟩] 0 0 []) : Int) ≤ 100 ∧
    ((format_context ⟨[⟨"d1", "hello", [("title", "t")]⟩], [], "q", "c"⟩ 100).length : Int) ≤
      100 + ((formatContextGo 100 [⟨"d1", "hello", [("title", "t")]⟩] 0 0 []).length : Int) - 1 :=
  (c7_format_context_blocks ⟨[⟨"d1", "hello", [("title", "t")]⟩], [], "q", "c"⟩ 100).2.2
    (by decide)

/-- Counterexample for C7 as stated: with two blocks of 20 characters
each and `max_length = 40`, both blocks are appended (their cumulative
length is exactly 40) but the joining newline makes the returned string
41 characters long, exceeding `max_length`. -/
theorem c7_counterexample :
    ¬ ((format_context ⟨[⟨"d1", "aaaaa", [("title", "t")]⟩,
        ⟨"d2", "aaaaa", [("title", "t")]⟩], [], "q", "c"⟩ 40).length ≤ 40) := by
  decide

/-! ## C4: event bus handler ordering -/

theorem insertDesc_cons {H : Type} (x y : Int × H) (ys : List (Int × H)) :
    insertDesc x (y :: ys) = if x.1 ≤ y.1 then y :: insertDesc x ys else x :: y :: ys := rfl

theorem mem_insertDesc {H : Type} (x z : Int × H) :
    ∀ l : List (Int × H), z ∈ insertDesc x l ↔ z = x ∨ z ∈ l
  | [] => by simp [insertDesc]
  | y :: ys => by
    rw [insertDesc_cons]
    by_cases hxy : x.1 ≤ y.1
    · rw [if_pos hxy]
      simp only [List.mem_cons, mem_insertDesc x z ys]
      tauto
    · rw [if_neg hxy]
      simp only [List.mem_cons]

theorem insertDesc_sorted {H : Type} (x : Int × H) :
    ∀ l : List (Int × H), SortedDesc l → SortedDesc (insertDesc x l)
  | [], _ => by simp [insertDesc, SortedDesc]
  | y :: ys, h => by
    unfold SortedDesc at h ⊢
    rw [List.pairwise_cons] at h
    rw [insertDesc_cons]
    by_cases hxy : x.1 ≤ y.1
    · rw [if_pos hxy, List.pairwise_cons]
      refine ⟨fun z hz => ?_, insertDesc_sorted x ys h.2⟩
      rcases (mem_insertDesc x z ys).mp hz with hzx | hzm
      · exact hzx ▸ hxy
      · exact h.1 z hzm
    · rw [if_neg hxy, List.pairwise_cons]
      push_neg at hxy
      constructor
      · intro z hz
        rcases List.mem_cons.mp hz with hzy | hzm
        · exact hzy ▸ le_of_lt hxy
        · exact le_trans (h.1 z hzm) (le_of_lt hxy)
      · rw [List.pairwise_cons]
        exact h

theorem insertDesc_perm {H : Type} (x : Int × H) :
    ∀ l : List (Int × H), (insertDesc x l).Perm (x :: l)
  | [] => by simp [insertDesc]
  | y :: ys => by
    rw [insertDesc_cons]
    by_cases hxy : x.1 ≤ y.1
    · rw [if_pos hxy]
      exact ((insertDesc_perm x ys).cons y).trans (List.Perm.swap x y ys)
    · rw [if_neg hxy]

theorem filter_insertDesc {H : Type} (p : Int) (x : Int × H) :
    ∀ l : List (Int × H), SortedDesc l →
      (insertDesc x l).filter (fun z => decide (z.1 = p)) =
        l.filter (fun z => decide (z.1 = p)) ++ (if x.1 = p then [x] else [])
  | [], _ => by
    by_cases hx : x.1 = p <;> simp [insertDesc, hx]
  | y :: ys, h => by
    unfold SortedDesc at h
    rw [List.pairwise_cons] at h
    rw [insertDesc_cons]
    by_cases hxy : x.1 ≤ y.1
    · rw [if_pos hxy]
      have ih := filter_insertDesc p x ys h.2
      by_cases hy : y.1 = p <;> simp [List.filter_cons, hy, ih]
    · rw [if_neg hxy]
      push_neg at hxy
      by_cases hx : x.1 = p
      · have hnil : (y :: ys).filter (fun z => decide (z.1 = p)) = [] := by
          rw [List.filter_eq_nil_iff]
          intro z hz
          have hzy : z.1 ≤ y.1 := by
            rcases List.mem_cons.mp hz with hzy | hzm
            · exact hzy ▸ le_rfl
            · exact h.1 z hzm
          simp only [decide_eq_true_eq]
          omega
        simp [List.filter_cons, hx, hnil]
      · simp [List.filter_cons, hx]

theorem foldl_insertDesc_sorted {H : Type} :
    ∀ (l acc : List (Int × H)), SortedDesc acc →
      SortedDesc (l.foldl (fun a x => insertDesc x a) acc)
  | [], _, h => h
  | x :: xs, acc, h =>
    foldl_insertDesc_sorted xs (insertDesc x acc) (insertDesc_sorted x acc h)

theorem pySortDesc_sorted {H : Type} (l : List (Int × H)) : SortedDesc (pySortDesc l) :=
  foldl_insertDesc_sorted l [] (by simp [SortedDesc])

theorem foldl_insertDesc_perm {H : Type} :
    ∀ (l acc : List (Int × H)), (l.foldl (fun a x => insertDesc x a) acc).Perm (acc ++ l)
  | [], acc => by simp
  | x :: xs, acc => by
    simp only [List.foldl_cons]
    refine (foldl_insertDesc_perm xs (insertDesc x acc)).trans ?_
    refine ((insertDesc_perm x acc).append_right xs).trans ?_
    exact List.perm_middle.symm

theorem pySortDesc_perm {H : Type} (l : List (Int × H)) : (pySortDesc l).Perm l := by
  simpa using foldl_insertDesc_perm l []

theorem foldl_insertDesc_filter {H : Type} (p : Int) :
    ∀ (l acc : List (Int × H)), SortedDesc acc →
      (l.foldl (fun a x => insertDesc x a) acc).filter (fun z => decide (z.1 = p)) =
        acc.filter (fun z => decide (z.1 = p)) ++ l.filter (fun z => decide (z.1 = p))
  | [], _, _ => by simp
  | x :: xs, acc, h => by
    have ih := foldl_insertDesc_filter p xs (insertDesc x acc) (insertDesc_sorted x acc h)
    simp only [List.foldl_cons] at *
    rw [ih, filter_insertDesc p x acc h]
    by_cases hx : x.1 = p <;> simp [List.filter_cons, hx]

theorem filter_pySortDesc {H : Type} (p : Int) (l : List (Int × H)) :
    (pySortDesc l).filter (fun z => decide (z.1 = p)) =
      l.filter (fun z => decide (z.1 = p)) := by
  simpa using foldl_insertDesc_filter p l [] (by simp [SortedDesc])

theorem lookup_map_setKey_other [DecidableEq κ] (d : List (κ × β)) (k k' : κ) (v : β)
    (h : k' ≠ k) :
    (d.map (fun p => if p.1 = k then (k, v) else p)).lookup k' = d.lookup k' := by
  induction d with
  | nil => simp
  | cons a tl ih =>
    obtain ⟨a1, a2⟩ := a
    simp only [List.map_cons]
    by_cases ha : a1 = k
    · subst ha
      rw [if_pos rfl]
      have hk : (k' == a1) = false := beq_eq_false_iff_ne.mpr h
      simp only [List.lookup, hk]
      exact ih
    · rw [if_neg ha]
      simp only [List.lookup]
      cases hb : (k' == a1) with
      | true => rfl
      | false => exact ih

theorem lookup_append_left [DecidableEq κ] (d e : List (κ × β)) (k : κ) (v' : β)
    (h : d.lookup k = some v') : (d ++ e).lookup k = some v' := by
  induction d with
  | nil => simp at h
  | cons a tl ih =>
    obtain ⟨a1, a2⟩ := a
    simp only [List.cons_append, List.lookup] at *
    cases hb : (k == a1) with
    | true => rw [hb] at h; exact h
    | false => rw [hb] at h; exact ih h

theorem dictSet_lookup_other [DecidableEq κ] (d : List (κ × β)) (k k' : κ) (v : β)
    (h : k' ≠ k) : (dictSet d k v).lookup k' = d.lookup k' := by
  unfold dictSet
  split
  · exact lookup_map_setKey_other d k k' v h
  · cases hl : d.lookup k' with
    | some v' => exact lookup_append_left d [(k, v)] k' v' hl
    | none =>
      rw [lookup_append_right d [(k, v)] k' hl]
      have hk : (k' == k) = false := beq_eq_false_iff_ne.mpr h
      simp [List.lookup, hk]

theorem busOf_concat [DecidableEq ET] (subs : List (Sub ET H)) (s : Sub ET H) :
    busOf (subs ++ [s]) = (busOf subs).subscribe s.etype s.handler s.priority := by
  simp [busOf, List.foldl_append]

theorem busOf_spec [DecidableEq ET] (subs : List (Sub ET H)) :
    (∀ et : ET,
      SortedDesc ((busOf subs).concreteList et) ∧
      ((busOf subs).concreteList et).Perm (concreteSubs subs et) ∧
      (∀ p : Int, ((busOf subs).concreteList et).filter (fun z => decide (z.1 = p)) =
        (concreteSubs subs et).filter (fun z => decide (z.1 = p)))) ∧
    (SortedDesc (busOf subs).wildcard_handlers ∧
      (busOf subs).wildcard_handlers.Perm (wildcardSubs subs) ∧
      (∀ p : Int, (busOf subs).wildcard_handlers.filter (fun z => decide (z.1 = p)) =
        (wildcardSubs subs).filter (fun z => decide (z.1 = p)))) := by
  induction subs using List.reverseRecOn with
  | nil =>
    constructor
    · intro et
      refine ⟨?_, ?_, ?_⟩ <;>
        simp [busOf, EventBus.empty, EventBus.concreteList, concreteSubs, SortedDesc]
    · refine ⟨?_, ?_, ?_⟩ <;>
        simp [busOf, EventBus.empty, wildcardSubs, SortedDesc]
  | append_singleton subs s ih =>
    rw [busOf_concat]
    obtain ⟨ihc, ihw⟩ := ih
    match hs : s.etype with
    | none =>
      constructor
      · intro et
        have hcl : ((busOf subs).subscribe none s.handler s.priority).concreteList et =
            (busOf subs).concreteList et := rfl
        have hcs : concreteSubs (subs ++ [s]) et = concreteSubs subs et := by
          simp [concreteSubs, List.filter_append, hs]
        rw [hcl, hcs]
        exact ihc et
      · have hwl : ((busOf subs).subscribe none s.handler s.priority).wildcard_handlers =
            pySortDesc ((busOf subs).wildcard_handlers ++ [(s.priority, s.handler)]) := rfl
        have hws : wildcardSubs (subs ++ [s]) =
            wildcardSubs subs ++ [(s.priority, s.handler)] := by
          simp [wildcardSubs, List.filter_append, hs]
        refine ⟨?_, ?_, ?_⟩
        · rw [hwl]; exact pySortDesc_sorted _
        · rw [hwl, hws]
          exact (pySortDesc_perm _).trans (ihw.2.1.append_right _)
        · intro p
          rw [hwl, hws, filter_pySortDesc, List.filter_append, List.filter_append,
            ihw.2.2 p]
    | some et0 =>
      constructor
      · intro et
        by_cases het : et = et0
        · subst het
          have hcl : ((busOf subs).subscribe (some et) s.handler s.priority).concreteList et =
              pySortDesc ((busOf subs).concreteList et ++ [(s.priority, s.handler)]) := by
            simp only [EventBus.subscribe, EventBus.concreteList]
            rw [dictSet_lookup_self]
            rfl
          have hcs : concreteSubs (subs ++ [s]) et =
              concreteSubs subs et ++ [(s.priority, s.handler)] := by
            simp [concreteSubs, List.filter_append, hs]
          refine ⟨?_, ?_, ?_⟩
          · rw [hcl]; exact pySortDesc_sorted _
          · rw [hcl, hcs]
            exact (pySortDesc_perm _).trans (((ihc et).2.1).append_right _)
          · intro p
            rw [hcl, hcs, filter_pySortDesc, List.filter_append, List.filter_append,
              (ihc et).2.2 p]
        · have hcl : ((busOf subs).subscribe (some et0) s.handler s.priority).concreteList et =
              (busOf subs).concreteList et := by
            simp only [EventBus.subscribe, EventBus.concreteList]
            rw [dictSet_lookup_other _ _ _ _ het]
          have hne : s.etype ≠ some et := by
            rw [hs]
            exact fun hh => het (Option.some.inj hh).symm
          have hcs : concreteSubs (subs ++ [s]) et = concreteSubs subs et := by
            simp [concreteSubs, List.filter_append, decide_eq_false hne]
          rw [hcl, hcs]
          exact ihc et
      · have hwl : ((busOf subs).subscribe (some et0) s.handler s.priority).wildcard_handlers =
            (busOf subs).wildcard_handlers := rfl
        have hws : wildcardSubs (subs ++ [s]) = wildcardSubs subs := by
          simp [wildcardSubs, List.filter_append, hs]
        rw [hwl, hws]
        exact ihw

/-- C4 (amended): `publish` invokes the merged concrete and wildcard
handlers sequentially in descending-priority order and the invoked set is
exactly the matching subscriptions; but among handlers of equal priority,
all concrete-typed handlers are invoked before all wildcard handlers
(a consequence of stably sorting `handlers + wildcard_handlers`), the
subscription order being preserved only within each of the two groups. -/
theorem c4_publish_order [DecidableEq ET] (subs : List (Sub ET H)) (et : ET) :
    SortedDesc ((busOf subs).publishOrder et) ∧
    ((busOf subs).publishOrder et).Perm (concreteSubs subs et ++ wildcardSubs subs) ∧
    (∀ p : Int, ((busOf subs).publishOrder et).filter (fun z => decide (z.1 = p)) =
      (concreteSubs subs et).filter (fun z => decide (z.1 = p)) ++
        (wildcardSubs subs).filter (fun z => decide (z.1 = p))) := by
  obtain ⟨ihc, ihw⟩ := busOf_spec subs
  have hpo : (busOf subs).publishOrder et =
      pySortDesc ((busOf subs).concreteList et ++ (busOf subs).wildcard_handlers) := rfl
  refine ⟨?_, ?_, ?_⟩
  · rw [hpo]; exact pySortDesc_sorted _
  · rw [hpo]
    exact (pySortDesc_perm _).trans (List.Perm.append (ihc et).2.1 ihw.2.1)
  · intro p
    rw [hpo, filter_pySortDesc, List.filter_append, (ihc et).2.2 p, ihw.2.2 p]

/-- Counterexample for C4 as stated: a wildcard handler (id 100)
subscribed first and a concrete handler (id 200) subscribed second, both
at priority 0; `publish` invokes the concrete handler first, so the
equal-priority invocation order is not the subscription order. -/
theorem c4_counterexample :
    ((busOf [⟨none, 0, 100⟩, ⟨some 7, 0, 200⟩] : EventBus Nat Nat).publishOrder 7).map
        Prod.snd = [200, 100] ∧
    ((busOf [⟨none, 0, 100⟩, ⟨some 7, 0, 200⟩] : EventBus Nat Nat).publishOrder 7).map
        Prod.snd ≠ [100, 200] := by
  decide

/-! ## Chunking: whitespace and substring lemmas -/

theorem nonWs_append (a b : List Char) : nonWs (a ++ b) = nonWs a ++ nonWs b := by
  simp [nonWs]

theorem nonWs_dropWhile (l : List Char) :
    nonWs (l.dropWhile isPySpace) = nonWs l := by
  induction l with
  | nil => rfl
  | cons c tl ih =>
    by_cases hc : isPySpace c = true
    · rw [List.dropWhile_cons_of_pos hc, ih]
      simp [nonWs, hc]
    · rw [List.dropWhile_cons_of_neg hc]

theorem nonWs_reverse (l : List Char) : nonWs l.reverse = (nonWs l).reverse := by
  simp [nonWs, List.filter_reverse]

theorem nonWs_pyStrip (s : List Char) : nonWs (pyStrip s) = nonWs s := by
  unfold pyStrip
  rw [nonWs_reverse, nonWs_dropWhile, nonWs_reverse, nonWs_dropWhile,
    List.reverse_reverse]

theorem nonWs_of_strip_nil (s : List Char) (h : pyStrip s = []) : nonWs s = [] := by
  rw [← nonWs_pyStrip, h]
  rfl

theorem dropWhile_ne_nil_mem (p : Char → Bool) (l : List Char)
    (h : l.dropWhile p ≠ []) : ∃ c ∈ l.dropWhile p, p c = false := by
  induction l with
  | nil => exact absurd rfl h
  | cons c tl ih =>
    by_cases hc : p c = true
    · rw [List.dropWhile_cons_of_pos hc] at h ⊢
      exact ih h
    · rw [List.dropWhile_cons_of_neg hc]
      exact ⟨c, List.mem_cons_self c _, by simpa using hc⟩

theorem pyStrip_has_nonWs (s : List Char) (h : pyStrip s ≠ []) :
    ∃ c ∈ pyStrip s, isPySpace c = false := by
  unfold pyStrip at h ⊢
  have h2 : ((s.dropWhile isPySpace).reverse.dropWhile isPySpace) ≠ [] := by
    intro hnil
    rw [hnil] at h
    exact h rfl
  obtain ⟨c, hmem, hc⟩ := dropWhile_ne_nil_mem isPySpace _ h2
  exact ⟨c, List.mem_reverse.mpr hmem, hc⟩

theorem dropWhile_suffix_exists (p : Char → Bool) (l : List Char) :
    ∃ u, l = u ++ l.dropWhile p := by
  induction l with
  | nil => exact ⟨[], rfl⟩
  | cons c tl ih =>
    by_cases hc : p c = true
    · obtain ⟨u, hu⟩ := ih
      rw [List.dropWhile_cons_of_pos hc]
      exact ⟨c :: u, by rw [List.cons_append, ← hu]⟩
    · rw [List.dropWhile_cons_of_neg hc]
      exact ⟨[], rfl⟩

theorem pyStrip_substring (s : List Char) : substringOf (pyStrip s) s := by
  obtain ⟨u1, hu1⟩ := dropWhile_suffix_exists isPySpace s
  obtain ⟨u2, hu2⟩ := dropWhile_suffix_exists isPySpace (s.dropWhile isPySpace).reverse
  refine ⟨u1, u2.reverse, ?_⟩
  conv_lhs => rw [hu1]
  have hd : s.dropWhile isPySpace =
      pyStrip s ++ u2.reverse := by
    have := congrArg List.reverse hu2
    rw [List.reverse_reverse, List.reverse_append] at this
    exact this
  rw [hd, List.append_assoc]

theorem pySlice_substring (s : List Char) (a b : Int) :
    substringOf (pySlice s a b) s := by
  unfold pySlice
  refine ⟨s.take (pyBnd s.length a),
    (s.drop (pyBnd s.length a)).drop (pyBnd s.length b - pyBnd s.length a), ?_⟩
  rw [List.append_assoc, List.take_append_drop, List.take_append_drop]

theorem substringOf_trans {t u s : List Char} (h1 : substringOf t u)
    (h2 : substringOf u s) : substringOf t s := by
  obtain ⟨x1, y1, h1⟩ := h1
  obtain ⟨x2, y2, h2⟩ := h2
  exact ⟨x2 ++ x1, y1 ++ y2, by rw [h2, h1]; simp [List.append_assoc]⟩

theorem stripSlice_substring (s : List Char) (a b : Int) :
    substringOf (pyStrip (pySlice s a b)) s :=
  substringOf_trans (pyStrip_substring _) (pySlice_substring s a b)

theorem chunkContents_append (a b : List (Chunk α)) :
    chunkContents (a ++ b) = chunkContents a ++ chunkContents b := by
  simp [chunkContents]

theorem appendChunk_eq (meta : List (String × α)) (chunks : List (Chunk α))
    (s : List Char) (a b : Int) :
    appendChunk meta chunks s a b = chunks ++
      (if pyStrip s = [] then []
        else [⟨pyStrip s, mergeMeta meta chunks.length, a, b⟩]) := by
  unfold appendChunk
  by_cases h : pyStrip s = [] <;> simp [h]

theorem nonWs_appendChunk (meta : List (String × α)) (chunks : List (Chunk α))
    (s : List Char) (a b : Int) :
    nonWs (chunkContents (appendChunk meta chunks s a b)) =
      nonWs (chunkContents chunks) ++ nonWs s := by
  rw [appendChunk_eq]
  by_cases h : pyStrip s = []
  · rw [if_pos h, nonWs_of_strip_nil s h]
    simp
  · rw [if_neg h, chunkContents_append, nonWs_append]
    have : chunkContents [(⟨pyStrip s, mergeMeta meta chunks.length, a, b⟩ : Chunk α)] =
        pyStrip s := by simp [chunkContents]
    rw [this, nonWs_pyStrip]

theorem mem_appendChunk (meta : List (String × α)) (chunks : List (Chunk α))
    (s : List Char) (a b : Int) (ch : Chunk α)
    (h : ch ∈ appendChunk meta chunks s a b) :
    ch ∈ chunks ∨ ch.content = pyStrip s := by
  rw [appendChunk_eq] at h
  rcases List.mem_append.mp h with hm | hm
  · exact Or.inl hm
  · right
    by_cases hs : pyStrip s = []
    · rw [if_pos hs] at hm
      simp at hm
    · rw [if_neg hs] at hm
      rw [List.mem_singleton.mp hm]

/-! ## C6: chunk invariants -/

theorem chunksOkFrom_append (meta : List (String × α)) :
    ∀ (acc : List (Chunk α)) (i : Nat) (ch : Chunk α),
      chunksOkFrom meta i acc →
      (ch.content ≠ [] ∧ (∃ c ∈ ch.content, isPySpace c = false) ∧
        ch.metadata = mergeMeta meta (i + acc.length)) →
      chunksOkFrom meta i (acc ++ [ch])
  | [], i, ch, _, hch => by
    simp only [List.nil_append, chunksOkFrom]
    exact ⟨by simpa using hch, trivial⟩
  | a :: rest, i, ch, hacc, hch => by
    simp only [chunksOkFrom] at hacc ⊢
    refine ⟨hacc.1, chunksOkFrom_append meta rest (i + 1) ch hacc.2 ?_⟩
    have : i + 1 + rest.length = i + (a :: rest).length := by
      simp [List.length_cons]
      omega
    rw [this]
    exact hch

theorem chunksOkFrom_appendChunk (meta : List (String × α)) (chunks : List (Chunk α))
    (s : List Char) (a b : Int) (h : chunksOkFrom meta 0 chunks) :
    chunksOkFrom meta 0 (appendChunk meta chunks s a b) := by
  rw [appendChunk_eq]
  by_cases hs : pyStrip s = []
  · rw [if_pos hs]
    simpa using h
  · rw [if_neg hs]
    refine chunksOkFrom_append meta chunks 0 _ h ⟨hs, pyStrip_has_nonWs s hs, ?_⟩
    simp

theorem fixedSizeRun_ok (c : DocumentChunker) (text : List Char)
    (meta : List (String × α)) :
    ∀ (fuel : Nat) (start : Int) (acc out : List (Chunk α)),
      chunksOkFrom meta 0 acc →
      fixedSizeRun c text meta fuel start acc = some out →
      chunksOkFrom meta 0 out
  | 0, start, acc, out, hacc, h => by
    rw [fixedSizeRun] at h
    split at h
    · exact absurd h (by simp)
    · rw [Option.some.inj h] at hacc
      exact hacc
  | Nat.succ fuel, start, acc, out, hacc, h => by
    rw [fixedSizeRun] at h
    split at h
    · exact fixedSizeRun_ok c text meta fuel _ _ out
        (chunksOkFrom_appendChunk meta acc _ _ _ hacc) h
    · rw [Option.some.inj h] at hacc
      exact hacc

theorem slidingRun_ok (c : DocumentChunker) (text : List Char)
    (meta : List (String × α)) :
    ∀ (fuel : Nat) (start : Int) (acc out : List (Chunk α)),
      chunksOkFrom meta 0 acc →
      slidingRun c text meta fuel start acc = some out →
      chunksOkFrom meta 0 out
  | 0, start, acc, out, hacc, h => by
    rw [slidingRun] at h
    split at h
    · exact absurd h (by simp)
    · rw [Option.some.inj h] at hacc
      exact hacc
  | Nat.succ fuel, start, acc, out, hacc, h => by
    rw [slidingRun] at h
    split at h
    · dsimp only at h
      split at h
      · rw [← Option.some.inj h]
        exact chunksOkFrom_appendChunk meta acc _ _ _ hacc
      · exact slidingRun_ok c text meta fuel _ _ out
          (chunksOkFrom_appendChunk meta acc _ _ _ hacc) h
    · rw [Option.some.inj h] at hacc
      exact hacc

theorem semanticAccum_ok (c : DocumentChunker) (meta : List (String × α)) :
    ∀ (ss : List (List Char)) (current : List Char) (cs : Int)
      (chunks : List (Chunk α)),
      chunksOkFrom meta 0 chunks →
      chunksOkFrom meta 0 (semanticAccum c meta ss current cs chunks)
  | [], current, cs, chunks, h => by
    rw [semanticAccum]
    exact chunksOkFrom_appendChunk meta chunks _ _ _ h
  | s :: ss, current, cs, chunks, h => by
    rw [semanticAccum]
    split
    · exact semanticAccum_ok c meta ss _ _ chunks h
    · exact semanticAccum_ok c meta ss _ _ _
        (chunksOkFrom_appendChunk meta chunks _ _ _ h)

theorem paragraphAccum_ok (c : DocumentChunker) (meta : List (String × α)) :
    ∀ (ps : List (List Char)) (current : List Char) (cs pos : Int)
      (chunks : List (Chunk α)),
      chunksOkFrom meta 0 chunks →
      chunksOkFrom meta 0 (paragraphAccum c meta ps current cs pos chunks)
  | [], current, cs, pos, chunks, h => by
    rw [paragraphAccum]
    exact chunksOkFrom_appendChunk meta chunks _ _ _ h
  | p :: ps, current, cs, pos, chunks, h => by
    rw [paragraphAccum]
    split
    · exact paragraphAccum_ok c meta ps _ _ _ chunks h
    · split
      · exact paragraphAccum_ok c meta ps _ _ _ chunks h
      · exact paragraphAccum_ok c meta ps _ _ _ _
          (chunksOkFrom_appendChunk meta chunks _ _ _ h)

/-- C6: under every strategy, every chunk the chunker returns has
non-empty content with at least one non-whitespace character, carries the
caller metadata merged with its `chunk_index`, and the `chunk_index`
values are exactly the contiguous ordinals 0, 1, ..., n-1 in list order
(the statement `chunksOkFrom meta 0 chunks` asserts precisely this chain
of indexed invariants). -/
theorem c6_chunk_invariants (c : DocumentChunker) (text : List Char)
    (strategy : ChunkingStrategy) (meta : List (String × α)) (fuel : Nat)
    (chunks : List (Chunk α))
    (h : c.chunk text strategy meta fuel = some chunks) :
    chunksOkFrom meta 0 chunks := by
  cases strategy with
  | fixed_size =>
    exact fixedSizeRun_ok c text meta fuel 0 [] chunks trivial h
  | semantic =>
    rw [DocumentChunker.chunk, DocumentChunker.chunkSemantic] at h
    rw [← Option.some.inj h]
    exact semanticAccum_ok c meta _ [] 0 [] trivial
  | paragraph =>
    rw [DocumentChunker.chunk, DocumentChunker.chunkParagraph] at h
    rw [← Option.some.inj h]
    exact paragraphAccum_ok c meta _ [] 0 0 [] trivial
  | sliding_window =>
    exact slidingRun_ok c text meta fuel 0 [] chunks trivial h

/-- Witness for C6: the semantic strategy on a concrete two-sentence
text. -/
theorem c6_chunk_invariants_witness :
    ∃ chunks : List (Chunk Unit),
      DocumentChunker.chunk ⟨10, 0⟩ "ab. cd. ef.".data ChunkingStrategy.semantic [] 0 =
        some chunks ∧ chunksOkFrom [] 0 chunks :=
  ⟨_, rfl, c6_chunk_invariants ⟨10, 0⟩ "ab. cd. ef.".data ChunkingStrategy.semantic [] 0 _ rfl⟩

/-! ## C5: content preservation across the strategies -/

theorem nonWs_cons_space {c : Char} (l : List Char) (h : isPySpace c = true) :
    nonWs (c :: l) = nonWs l := by
  simp [nonWs, h]

theorem nonWs_cons_nonspace {c : Char} (l : List Char) (h : isPySpace c = false) :
    nonWs (c :: l) = c :: nonWs l := by
  simp [nonWs, h]

theorem sentEnd_not_space (c : Char) (h : isSentEnd c = true) : isPySpace c = false := by
  simp only [isSentEnd, Bool.or_eq_true, beq_iff_eq] at h
  rcases h with (h | h) | h <;> subst h <;> decide

theorem sentScan_some_cons (acc : List Char) (c : Char) (rest : List Char) :
    sentScan (some acc) (c :: rest) =
      if isSentEnd c && headIsSpace rest then (acc.reverse ++ [c]) :: sentScan none rest
      else sentScan (some (c :: acc)) rest := rfl

theorem sentScan_none_cons (c : Char) (rest : List Char) :
    sentScan none (c :: rest) =
      if isPySpace c then sentScan none rest else sentScan (some [c]) rest := rfl

theorem nonWs_sentScan : ∀ l : List Char,
    (∀ acc, nonWs ((sentScan (some acc) l).flatten) = nonWs acc.reverse ++ nonWs l) ∧
    nonWs ((sentScan none l).flatten) = nonWs l
  | [] => by
    constructor
    · intro acc
      simp [sentScan, nonWs]
    · simp [sentScan, nonWs]
  | c :: rest => by
    have ih := nonWs_sentScan rest
    constructor
    · intro acc
      rw [sentScan_some_cons]
      by_cases hcut : (isSentEnd c && headIsSpace rest) = true
      · rw [if_pos hcut]
        have hsp : isPySpace c = false :=
          sentEnd_not_space c (Bool.and_elim_left hcut)
        rw [List.flatten_cons, nonWs_append, nonWs_append, ih.2,
          nonWs_cons_nonspace rest hsp, nonWs_cons_nonspace [] hsp]
        simp [nonWs, List.append_assoc]
      · rw [if_neg hcut, ih.1 (c :: acc)]
        by_cases hsp : isPySpace c = true
        · rw [nonWs_cons_space rest hsp]
          simp only [List.reverse_cons, nonWs_append, nonWs_cons_space [] hsp]
          simp [nonWs]
        · rw [nonWs_cons_nonspace rest (by simpa using hsp)]
          simp only [List.reverse_cons, nonWs_append,
            nonWs_cons_nonspace [] (by simpa using hsp)]
          simp [nonWs, List.append_assoc]
    · rw [sentScan_none_cons]
      by_cases hsp : isPySpace c = true
      · rw [if_pos hsp, ih.2, nonWs_cons_space rest hsp]
      · rw [if_neg hsp, ih.1 [c], nonWs_cons_nonspace rest (by simpa using hsp)]
        simp [nonWs, by simpa using hsp]

theorem paraScan_some_cons (acc : List Char) (c : Char) (rest : List Char) :
    paraScan (some acc) (c :: rest) =
      if c == '\n' && headIsNl rest then acc.reverse :: paraScan none rest
      else paraScan (some (c :: acc)) rest := rfl

theorem paraScan_none_cons (c : Char) (rest : List Char) :
    paraScan none (c :: rest) =
      if c == '\n' then paraScan none rest else paraScan (some [c]) rest := rfl

theorem nonWs_paraScan : ∀ l : List Char,
    (∀ acc, nonWs ((paraScan (some acc) l).flatten) = nonWs acc.reverse ++ nonWs l) ∧
    nonWs ((paraScan none l).flatten) = nonWs l
  | [] => by
    constructor
    · intro acc
      simp [paraScan, nonWs]
    · simp [paraScan, nonWs]
  | c :: rest => by
    have ih := nonWs_paraScan rest
    constructor
    · intro acc
      rw [paraScan_some_cons]
      by_cases hcut : (c == '\n' && headIsNl rest) = true
      · rw [if_pos hcut]
        have hc : c = '\n' := by
          have := Bool.and_elim_left hcut
          simpa using this
        subst hc
        rw [List.flatten_cons, nonWs_append, ih.2, nonWs_cons_space rest (by decide)]
      · rw [if_neg hcut, ih.1 (c :: acc)]
        by_cases hsp : isPySpace c = true
        · rw [nonWs_cons_space rest hsp]
          simp only [List.reverse_cons, nonWs_append, nonWs_cons_space [] hsp]
          simp [nonWs]
        · rw [nonWs_cons_nonspace rest (by simpa using hsp)]
          simp only [List.reverse_cons, nonWs_append,
            nonWs_cons_nonspace [] (by simpa using hsp)]
          simp [nonWs, List.append_assoc]
    · rw [paraScan_none_cons]
      by_cases hc : (c == '\n') = true
      · have hc' : c = '\n' := by simpa using hc
        subst hc'
        rw [if_pos (by decide : (('\n' : Char) == '\n') = true), ih.2,
          nonWs_cons_space rest (by decide)]
      · rw [if_neg hc, ih.1 [c]]
        by_cases hsp : isPySpace c = true
        · rw [nonWs_cons_space rest hsp]
          simp [nonWs, hsp]
        · rw [nonWs_cons_nonspace rest (by simpa using hsp)]
          simp [nonWs, by simpa using hsp]

theorem nonWs_semanticAccum (c : DocumentChunker) (meta : List (String × α)) :
    ∀ (ss : List (List Char)) (current : List Char) (cs : Int)
      (chunks : List (Chunk α)),
      nonWs (chunkContents (semanticAccum c meta ss current cs chunks)) =
        nonWs (chunkContents chunks) ++ nonWs current ++ nonWs ss.flatten
  | [], current, cs, chunks => by
    rw [semanticAccum, nonWs_appendChunk]
    simp [nonWs]
  | s :: ss, current, cs, chunks => by
    rw [semanticAccum]
    split
    · rw [nonWs_semanticAccum c meta ss _ _ chunks]
      have hsp : nonWs [' '] = [] := rfl
      rw [nonWs_append, nonWs_append, hsp, List.flatten_cons, nonWs_append]
      simp [List.append_assoc]
    · rw [nonWs_semanticAccum c meta ss _ _ _, nonWs_appendChunk]
      have hsp : nonWs [' '] = [] := rfl
      rw [nonWs_append, hsp, List.flatten_cons, nonWs_append]
      simp [List.append_assoc]

theorem nonWs_chunkSemantic (c : DocumentChunker) (text : List Char)
    (meta : List (String × α)) :
    nonWs (chunkContents (c.chunkSemantic text meta)) = nonWs text := by
  rw [DocumentChunker.chunkSemantic, nonWs_semanticAccum]
  have h := (nonWs_sentScan text).1 []
  rw [splitSentences, h]
  simp [chunkContents, nonWs]

theorem nonWs_paragraphAccum (c : DocumentChunker) (meta : List (String × α)) :
    ∀ (ps : List (List Char)) (current : List Char) (cs pos : Int)
      (chunks : List (Chunk α)),
      nonWs (chunkContents (paragraphAccum c meta ps current cs pos chunks)) =
        nonWs (chunkContents chunks) ++ nonWs current ++ nonWs ps.flatten
  | [], current, cs, pos, chunks => by
    rw [paragraphAccum, nonWs_appendChunk]
    simp [nonWs]
  | p :: ps, current, cs, pos, chunks => by
    rw [paragraphAccum]
    split
    · rename_i hstrip
      rw [nonWs_paragraphAccum c meta ps _ _ _ chunks, List.flatten_cons, nonWs_append,
        nonWs_of_strip_nil p hstrip]
      simp
    · split
      · rw [nonWs_paragraphAccum c meta ps _ _ _ chunks]
        have hnl : nonWs ['\n', '\n'] = [] := rfl
        rw [nonWs_append, nonWs_append, hnl, nonWs_pyStrip, List.flatten_cons,
          nonWs_append]
        simp [List.append_assoc]
      · rw [nonWs_paragraphAccum c meta ps _ _ _ _, nonWs_appendChunk]
        have hnl : nonWs ['\n', '\n'] = [] := rfl
        rw [nonWs_append, hnl, nonWs_pyStrip, List.flatten_cons, nonWs_append]
        simp [List.append_assoc]

theorem nonWs_chunkParagraph (c : DocumentChunker) (text : List Char)
    (meta : List (String × α)) :
    nonWs (chunkContents (c.chunkParagraph text meta)) = nonWs text := by
  rw [DocumentChunker.chunkParagraph, nonWs_paragraphAccum]
  have h := (nonWs_paraScan text).1 []
  rw [splitParas, h]
  simp [chunkContents, nonWs]

theorem appendChunk_delta (meta : List (String × α)) (chunks : List (Chunk α))
    (s : List Char) (a b : Int) :
    ∃ rest, appendChunk meta chunks s a b = chunks ++ rest ∧
      nonWs (chunkContents rest) = nonWs s := by
  rw [appendChunk_eq]
  by_cases hs : pyStrip s = []
  · refine ⟨[], by rw [if_pos hs], ?_⟩
    rw [nonWs_of_strip_nil s hs]
    rfl
  · refine ⟨[⟨pyStrip s, mergeMeta meta chunks.length, a, b⟩], by rw [if_neg hs], ?_⟩
    have : chunkContents [(⟨pyStrip s, mergeMeta meta chunks.length, a, b⟩ : Chunk α)] =
        pyStrip s := by simp [chunkContents]
    rw [this, nonWs_pyStrip]

theorem pyBnd_le (len : Nat) (i : Int) : pyBnd len i ≤ len := by
  unfold pyBnd
  split <;> omega

theorem pySlice_drop_take (s : List Char) (start : Nat) (e : Int)
    (h1 : (start : Int) ≤ e) (h2 : e ≤ (s.length : Int)) :
    pySlice s (start : Int) e = (s.drop start).take (e.toNat - start) := by
  unfold pySlice pyBnd
  have hs0 : ¬ ((start : Int) < 0) := by omega
  have he0 : ¬ (e < 0) := by omega
  rw [if_neg hs0, if_neg he0]
  have h3 : (start : Int).toNat = start := Int.toNat_natCast start
  have h4 : start ≤ s.length := by omega
  have h5 : e.toNat ≤ s.length := by omega
  rw [h3, Nat.min_eq_left h4, Nat.min_eq_left h5]

theorem drop_take_drop (s : List Char) (start k : Nat) :
    (s.drop start).take k ++ s.drop (start + k) = s.drop start := by
  conv_rhs => rw [← List.take_append_drop k (s.drop start)]
  rw [List.drop_drop]

theorem pyRfindSpace_bounds (s : List Char) (a b : Int) :
    pyRfindSpace s a b = -1 ∨
      (0 ≤ pyRfindSpace s a b ∧ pyRfindSpace s a b < ((pyBnd s.length b : Nat) : Int)) := by
  unfold pyRfindSpace
  dsimp only
  cases hl : ((List.range s.length).filter
      (fun i => decide (pyBnd s.length a ≤ i) && decide (i < pyBnd s.length b) &&
        (s.getD i 'x' == ' '))).getLast? with
  | none => exact Or.inl rfl
  | some i =>
    right
    have hx : i ∈ ((List.range s.length).filter
        (fun i => decide (pyBnd s.length a ≤ i) && decide (i < pyBnd s.length b) &&
          (s.getD i 'x' == ' '))).getLast? := Option.mem_def.mpr hl
    obtain ⟨hne, hxe⟩ := List.mem_getLast?_eq_getLast hx
    have hmem : i ∈ (List.range s.length).filter
        (fun i => decide (pyBnd s.length a ≤ i) && decide (i < pyBnd s.length b) &&
          (s.getD i 'x' == ' ')) := hxe ▸ List.getLast_mem hne
    have hcond := (List.mem_filter.mp hmem).2
    simp only [Bool.and_eq_true, decide_eq_true_eq] at hcond
    constructor
    · show (0 : Int) ≤ (i : Int)
      exact Int.natCast_nonneg i
    · show (i : Int) < ((pyBnd s.length b : Nat) : Int)
      exact_mod_cast hcond.1.2

theorem fixedEnd_bounds (c : DocumentChunker) (text : List Char) (start : Int)
    (hlt : start < (text.length : Int)) (hsz : 1 ≤ c.chunk_size) (h0 : 0 ≤ start) :
    start < fixedEnd c text start ∧ fixedEnd c text start ≤ (text.length : Int) := by
  unfold fixedEnd
  dsimp only
  have h1 : start < min (start + c.chunk_size) (text.length : Int) :=
    lt_min (by omega) hlt
  have h2 : min (start + c.chunk_size) (text.length : Int) ≤ (text.length : Int) :=
    min_le_right _ _
  split
  · rcases pyRfindSpace_bounds text start (min (start + c.chunk_size) (text.length : Int))
        with hneg | ⟨hge, hltb⟩
    · rw [hneg, if_neg (by omega)]
      exact ⟨h1, h2⟩
    · have hb := pyBnd_le text.length (min (start + c.chunk_size) (text.length : Int))
      split
      · constructor
        · omega
        · have : ((pyBnd text.length (min (start + c.chunk_size) (text.length : Int)) : Nat) :
              Int) ≤ (text.length : Int) := by exact_mod_cast hb
          omega
      · exact ⟨h1, h2⟩
  · exact ⟨h1, h2⟩

theorem slidingRun_reconstruct (c : DocumentChunker) (text : List Char)
    (meta : List (String × α)) (hov : c.chunk_overlap = 0) (hsz : 1 ≤ c.chunk_size) :
    ∀ (fuel : Nat) (start : Nat) (acc out : List (Chunk α)),
      slidingRun c text meta fuel (start : Int) acc = some out →
      ∃ rest, out = acc ++ rest ∧
        nonWs (chunkContents rest) = nonWs (text.drop start)
  | 0, start, acc, out, h => by
    rw [slidingRun] at h
    split at h
    · simp at h
    · rename_i hge
      refine ⟨[], by simpa using (Option.some.inj h).symm, ?_⟩
      have hlen : text.length ≤ start := by exact_mod_cast not_lt.mp hge
      rw [List.drop_eq_nil_of_le hlen]
      rfl
  | Nat.succ fuel, start, acc, out, h => by
    rw [slidingRun] at h
    split at h
    · rename_i hlt
      dsimp only at h
      have hse : (start : Int) < min ((start : Int) + c.chunk_size) (text.length : Int) :=
        lt_min (by omega) hlt
      have hel : min ((start : Int) + c.chunk_size) (text.length : Int) ≤
          (text.length : Int) := min_le_right _ _
      have hslice := pySlice_drop_take text start
        (min ((start : Int) + c.chunk_size) (text.length : Int)) (le_of_lt hse) hel
      obtain ⟨r1, hr1, hr1n⟩ := appendChunk_delta meta acc
        (pySlice text (start : Int) (min ((start : Int) + c.chunk_size) (text.length : Int)))
        (start : Int) (min ((start : Int) + c.chunk_size) (text.length : Int))
      split at h
      · rename_i hge
        have heq : (min ((start : Int) + c.chunk_size) (text.length : Int)).toNat =
            text.length := by omega
        refine ⟨r1, by rw [← Option.some.inj h, hr1], ?_⟩
        rw [hr1n, hslice, heq]
        have hlen : (text.drop start).length = text.length - start := List.length_drop _ _
        rw [List.take_of_length_le (by omega)]
      · rename_i hlt2
        push_neg at hlt2
        have hmin : min ((start : Int) + c.chunk_size) (text.length : Int) =
            (start : Int) + c.chunk_size := by omega
        have hstep : (start : Int) + (c.chunk_size - c.chunk_overlap) =
            ((start + c.chunk_size.toNat : Nat) : Int) := by
          rw [hov]
          push_cast
          omega
        rw [hstep] at h
        obtain ⟨r2, hr2, hr2n⟩ := slidingRun_reconstruct c text meta hov hsz fuel
          (start + c.chunk_size.toNat) _ out h
        refine ⟨r1 ++ r2, by rw [hr2, hr1, List.append_assoc], ?_⟩
        rw [chunkContents_append, nonWs_append, hr1n, hr2n, hslice]
        have htn : (min ((start : Int) + c.chunk_size) (text.length : Int)).toNat - start =
            c.chunk_size.toNat := by omega
        rw [htn, ← nonWs_append, drop_take_drop]
    · rename_i hge
      refine ⟨[], by simpa using (Option.some.inj h).symm, ?_⟩
      have hlen : text.length ≤ start := by exact_mod_cast not_lt.mp hge
      rw [List.drop_eq_nil_of_le hlen]
      rfl

theorem fixedSizeRun_reconstruct (c : DocumentChunker) (text : List Char)
    (meta : List (String × α)) (hov : c.chunk_overlap = 0) (hsz : 1 ≤ c.chunk_size) :
    ∀ (fuel : Nat) (start : Nat) (acc out : List (Chunk α)),
      fixedSizeRun c text meta fuel (start : Int) acc = some out →
      ∃ rest, out = acc ++ rest ∧
        nonWs (chunkContents rest) = nonWs (text.drop start)
  | 0, start, acc, out, h => by
    rw [fixedSizeRun] at h
    split at h
    · simp at h
    · rename_i hge
      refine ⟨[], by simpa using (Option.some.inj h).symm, ?_⟩
      have hlen : text.length ≤ start := by exact_mod_cast not_lt.mp hge
      rw [List.drop_eq_nil_of_le hlen]
      rfl
  | Nat.succ fuel, start, acc, out, h => by
    rw [fixedSizeRun] at h
    split at h
    · rename_i hlt
      dsimp only at h
      obtain ⟨hse, hel⟩ := fixedEnd_bounds c text (start : Int) hlt hsz (by omega)
      have hslice := pySlice_drop_take text start (fixedEnd c text (start : Int))
        (le_of_lt hse) hel
      obtain ⟨r1, hr1, hr1n⟩ := appendChunk_delta meta acc
        (pySlice text (start : Int) (fixedEnd c text (start : Int)))
        (start : Int) (fixedEnd c text (start : Int))
      have hstep : (if fixedEnd c text (start : Int) < (text.length : Int) then
          fixedEnd c text (start : Int) - c.chunk_overlap else (text.length : Int)) =
          (((fixedEnd c text (start : Int)).toNat : Nat) : Int) := by
        rw [hov]
        split <;> omega
      rw [hstep] at h
      obtain ⟨r2, hr2, hr2n⟩ := fixedSizeRun_reconstruct c text meta hov hsz fuel
        (fixedEnd c text (start : Int)).toNat _ out h
      refine ⟨r1 ++ r2, by rw [hr2, hr1, List.append_assoc], ?_⟩
      rw [chunkContents_append, nonWs_append, hr1n, hr2n, hslice]
      set k := (fixedEnd c text (start : Int)).toNat - start with hk
      have heq : (fixedEnd c text (start : Int)).toNat = start + k := by omega
      rw [heq, ← nonWs_append, drop_take_drop]
    · rename_i hge
      refine ⟨[], by simpa using (Option.some.inj h).symm, ?_⟩
      have hlen : text.length ≤ start := by exact_mod_cast not_lt.mp hge
      rw [List.drop_eq_nil_of_le hlen]
      rfl

theorem fixedSizeRun_substring (c : DocumentChunker) (text : List Char)
    (meta : List (String × α)) :
    ∀ (fuel : Nat) (start : Int) (acc out : List (Chunk α)),
      (∀ ch ∈ acc, substringOf ch.content text) →
      fixedSizeRun c text meta fuel start acc = some out →
      ∀ ch ∈ out, substringOf ch.content text
  | 0, start, acc, out, hacc, h => by
    rw [fixedSizeRun] at h
    split at h
    · simp at h
    · rw [← Option.some.inj h]
      exact hacc
  | Nat.succ fuel, start, acc, out, hacc, h => by
    rw [fixedSizeRun] at h
    split at h
    · refine fixedSizeRun_substring c text meta fuel _ _ out (fun ch hch => ?_) h
      rcases mem_appendChunk meta acc _ _ _ ch hch with hm | hm
      · exact hacc ch hm
      · rw [hm]
        exact stripSlice_substring text _ _
    · rw [← Option.some.inj h]
      exact hacc

theorem slidingRun_substring (c : DocumentChunker) (text : List Char)
    (meta : List (String × α)) :
    ∀ (fuel : Nat) (start : Int) (acc out : List (Chunk α)),
      (∀ ch ∈ acc, substringOf ch.content text) →
      slidingRun c text meta fuel start acc = some out →
      ∀ ch ∈ out, substringOf ch.content text
  | 0, start, acc, out, hacc, h => by
    rw [slidingRun] at h
    split at h
    · simp at h
    · rw [← Option.some.inj h]
      exact hacc
  | Nat.succ fuel, start, acc, out, hacc, h => by
    rw [slidingRun] at h
    split at h
    · dsimp only at h
      have hnext : ∀ ch ∈ appendChunk meta acc
          (pySlice text start (min (start + c.chunk_size) (text.length : Int))) start
          (min (start + c.chunk_size) (text.length : Int)),
          substringOf ch.content text := by
        intro ch hch
        rcases mem_appendChunk meta acc _ _ _ ch hch with hm | hm
        · exact hacc ch hm
        · rw [hm]
          exact stripSlice_substring text _ _
      split at h
      · rw [← Option.some.inj h]
        exact hnext
      · exact slidingRun_substring c text meta fuel _ _ out hnext h
    · rw [← Option.some.inj h]
      exact hacc

/-- C5 (amended): every chunk emitted by the fixed-size and
sliding-window strategies is a true substring of the input; the semantic
and paragraph strategies preserve the input's non-whitespace content
exactly once (their chunks normalize separators, so they need not be
substrings); and the window strategies preserve the non-whitespace
content exactly once only when `chunk_overlap = 0` — a positive overlap
re-emits the overlap region, duplicating content. -/
theorem c5_content_preservation (c : DocumentChunker) (text : List Char)
    (meta : List (String × α)) :
    (∀ fuel chunks, c.chunkFixedSize text meta fuel = some chunks →
        ∀ ch ∈ chunks, substringOf ch.content text) ∧
    (∀ fuel chunks, c.chunkSlidingWindow text meta fuel = some chunks →
        ∀ ch ∈ chunks, substringOf ch.content text) ∧
    (nonWs (chunkContents (c.chunkSemantic text meta)) = nonWs text) ∧
    (nonWs (chunkContents (c.chunkParagraph text meta)) = nonWs text) ∧
    (c.chunk_overlap = 0 → 1 ≤ c.chunk_size →
      (∀ fuel chunks, c.chunkFixedSize text meta fuel = some chunks →
        nonWs (chunkContents chunks) = nonWs text) ∧
      (∀ fuel chunks, c.chunkSlidingWindow text meta fuel = some chunks →
        nonWs (chunkContents chunks) = nonWs text)) := by
  refine ⟨?_, ?_, nonWs_chunkSemantic c text meta, nonWs_chunkParagraph c text meta, ?_⟩
  · intro fuel chunks h
    exact fixedSizeRun_substring c text meta fuel 0 [] chunks (by simp) h
  · intro fuel chunks h
    exact slidingRun_substring c text meta fuel 0 [] chunks (by simp) h
  · intro hov hsz
    constructor
    · intro fuel chunks h
      obtain ⟨rest, hr, hn⟩ := fixedSizeRun_reconstruct c text meta hov hsz fuel 0 [] chunks
        (by exact_mod_cast h)
      rw [hr, List.nil_append, hn, List.drop_zero]
    · intro fuel chunks h
      obtain ⟨rest, hr, hn⟩ := slidingRun_reconstruct c text meta hov hsz fuel 0 [] chunks
        (by exact_mod_cast h)
      rw [hr, List.nil_append, hn, List.drop_zero]

/-- Witness for C5 on a concrete zero-overlap sliding-window run. -/
theorem c5_content_preservation_witness :
    ∃ chunks : List (Chunk Unit),
      DocumentChunker.chunkSlidingWindow ⟨5, 0⟩ "ab cd ef".data [] 10 = some chunks ∧
      nonWs (chunkContents chunks) = nonWs "ab cd ef".data :=
  ⟨_, rfl, ((c5_content_preservation ⟨5, 0⟩ "ab cd ef".data []).2.2.2.2 rfl
    (by decide)).2 10 _ rfl⟩

theorem substringOf_length_eq {t s : List Char} (h : substringOf t s)
    (hlen : t.length = s.length) : t = s := by
  obtain ⟨u, v, huv⟩ := h
  have hl : u.length + t.length + v.length = s.length := by
    rw [huv]
    simp only [List.length_append]
  have hu : u = [] := List.eq_nil_of_length_eq_zero (by omega)
  have hv : v = [] := List.eq_nil_of_length_eq_zero (by omega)
  subst hu hv
  simpa using huv.symm

/-- Counterexample for C5 as stated: with `chunk_size=5, chunk_overlap=2`
the sliding window re-emits the characters of the overlap region, so the
concatenated chunks do not reproduce the non-whitespace content exactly
once; and a semantic chunk of `"ab.\ncd."` is `"ab. cd."` (the newline
separator is normalized to a space), which is not a substring of the
input. -/
theorem c5_counterexample :
    (¬ ∀ chunks : List (Chunk Unit),
        DocumentChunker.chunk ⟨5, 2⟩ "abcdefghij".data ChunkingStrategy.sliding_window [] 10 =
          some chunks → nonWs (chunkContents chunks) = nonWs "abcdefghij".data) ∧
    (¬ ∀ chunks : List (Chunk Unit),
        DocumentChunker.chunk ⟨20, 0⟩ "ab.\ncd.".data ChunkingStrategy.semantic [] 0 =
          some chunks → ∀ ch ∈ chunks, substringOf ch.content "ab.\ncd.".data) := by
  constructor
  · intro hcl
    have h := hcl _ rfl
    revert h
    decide
  · intro hcl
    have h := hcl _ rfl
    have hmem := h ⟨"ab. cd.".data, mergeMeta [] 0, 0, 8⟩ (by decide)
    have := substringOf_length_eq hmem (by decide)
    revert this
    decide

/-! ## C10: termination of the window loops -/

theorem fixedSizeRun_stuck : ∀ (fuel : Nat) (acc : List (Chunk Unit)),
    fixedSizeRun ⟨10, 5⟩ "abcde fghijklmnop".data [] fuel 0 acc = none
  | 0, _ => rfl
  | fuel + 1, acc => by
    have hstep : fixedSizeRun ⟨10, 5⟩ "abcde fghijklmnop".data ([] : List (String × Unit))
        (fuel + 1) 0 acc =
        fixedSizeRun ⟨10, 5⟩ "abcde fghijklmnop".data [] fuel 0
          (appendChunk [] acc (pySlice "abcde fghijklmnop".data 0 5) 0 5) := rfl
    rw [hstep]
    exact fixedSizeRun_stuck fuel _

/-- C10: the fixed-size chunking loop does NOT terminate for every input
with `0 ≤ chunk_overlap < chunk_size`.  With `chunk_size = 10`,
`chunk_overlap = 5` and the text `"abcde fghijklmnop"`, the window end is
trimmed back to the space at index 5 and the next start is
`5 - 5 = 0` again: the loop re-emits the chunk `"abcde"` forever, so no
amount of fuel makes the loop exit (the sliding-window loop, whose step
is always positive here, is not at fault). -/
theorem c10_fixed_size_divergence :
    (0 : Int) ≤ 5 ∧ (5 : Int) < 10 ∧
      ∀ fuel : Nat, DocumentChunker.chunkFixedSize ⟨10, 5⟩ "abcde fghijklmnop".data
        ([] : List (String × Unit)) fuel = none :=
  ⟨by decide, by decide, fun fuel => fixedSizeRun_stuck fuel []⟩

/-! ## C1: pipeline fail-fast sequencing -/

theorem execute_stage_spec (agents : AgentOracle) (name : String) (task : Task)
    (t0 t1 : ℚ) :
    (∃ r, (ContentPipeline.execute_stage agents name task t0 t1).1 = Except.ok r ∧
      (ContentPipeline.execute_stage agents name task t0 t1).2.1 = [(name, Except.ok r)] ∧
      r.success = true ∧
      ∃ logic t' r0, agents name = some logic ∧ logic t' = Except.ok r0 ∧
        r0.success = true) ∨
    ((∃ e, (ContentPipeline.execute_stage agents name task t0 t1).1 = Except.error e) ∧
      ((ContentPipeline.execute_stage agents name task t0 t1).2.1 = [] ∨
        ∃ o, (ContentPipeline.execute_stage agents name task t0 t1).2.1 = [(name, o)] ∧
          ∀ r, o = Except.ok r → r.success = false)) := by
  cases hag : agents name with
  | none =>
    right
    constructor
    · exact ⟨PipelineError.stageFailed name
        (pyOptStr (some ("Agent '" ++ name ++ "' not found"))),
        by simp [ContentPipeline.execute_stage, Orchestrator.execute_task, hag]⟩
    · left
      simp [ContentPipeline.execute_stage, Orchestrator.execute_task, hag]
  | some logic =>
    cases hlog : logic { task with status := TaskStatus.IN_PROGRESS, started_at := some t0 } with
    | error e =>
      right
      constructor
      · exact ⟨PipelineError.agentError ⟨name, task.task_id, e⟩,
          by simp [ContentPipeline.execute_stage, Orchestrator.execute_task,
            BaseAgent.execute, hag, hlog]⟩
      · refine Or.inr ⟨Except.error ⟨name, task.task_id, e⟩, ?_, ?_⟩
        · simp [ContentPipeline.execute_stage, Orchestrator.execute_task,
            BaseAgent.execute, hag, hlog]
        · intro r hr
          exact absurd hr (by simp)
    | ok r =>
      cases hsucc : r.success with
      | true =>
        left
        refine ⟨{ r with execution_time := t1 - t0 }, ?_, ?_, hsucc, logic, _, r, rfl,
          hlog, hsucc⟩
        · simp [ContentPipeline.execute_stage, Orchestrator.execute_task,
            BaseAgent.execute, hag, hlog, hsucc]
        · simp [ContentPipeline.execute_stage, Orchestrator.execute_task,
            BaseAgent.execute, hag, hlog, hsucc]
      | false =>
        right
        constructor
        · exact ⟨PipelineError.stageFailed name (pyOptStr r.error),
            by simp [ContentPipeline.execute_stage, Orchestrator.execute_task,
              BaseAgent.execute, hag, hlog, hsucc]⟩
        · refine Or.inr ⟨Except.ok { r with execution_time := t1 - t0 }, ?_, ?_⟩
          · simp [ContentPipeline.execute_stage, Orchestrator.execute_task,
              BaseAgent.execute, hag, hlog, hsucc]
          · intro r' hr'
            rw [← Except.ok.inj hr']
            exact hsucc

theorem entryOk_ok (name : String) (r : TaskResult) (h : r.success = true) :
    entryOk (name, Except.ok r) := by
  intro r' hr'
  rw [← Except.ok.inj hr']
  exact h

/-- C1: `create_content` is fail-fast.  The agent invocations of a run
always follow the stage order research, writer, editor, seo,
quality_reviewer, image_prompt, visual_suggestion with no stage skipped
or repeated, and only the final invocation may have returned an
unsuccessful result (`failFastTrace`); whenever some invocation returned
`success=false`, the pipeline raises; and if the editor agent only ever
returns failed results, the run raises and the seo, quality_reviewer,
image_prompt and visual_suggestion agents are invoked zero times. -/
theorem c1_pipeline_fail_fast (agents : AgentOracle) (topic : String)
    (target_length : Option Int) (metadata : List (String × PyVal))
    (dfltLen : Int) (minQ : PyVal) (pid : String) (taskIds : Nat → String)
    (clock : Nat → ℚ) :
    ∀ out, out = ContentPipeline.create_content agents topic target_length metadata
        dfltLen minQ pid taskIds clock →
      failFastTrace out.trace stageNames ∧
      ((∃ entry ∈ out.trace, ¬ entryOk entry) → ∃ e, out.result = Except.error e) ∧
      ((∀ logic, agents "editor" = some logic →
          ∀ t r, logic t = Except.ok r → r.success = false) →
        (∃ e, out.result = Except.error e) ∧
        "seo" ∉ out.trace.map Prod.fst ∧
        "quality_reviewer" ∉ out.trace.map Prod.fst ∧
        "image_prompt" ∉ out.trace.map Prod.fst ∧
        "visual_suggestion" ∉ out.trace.map Prod.fst) := by
  intro out hout
  unfold ContentPipeline.create_content at hout
  dsimp only at hout
  rcases execute_stage_spec agents "research"
      (mkTask topic "research" (taskIds 0)
        (pipelineCtx topic (pipelineTargetLength target_length dfltLen) metadata))
      (clock 0) (clock 1) with
    ⟨r1, hok1, hinv1, hs1, hprov1⟩ | ⟨⟨e1, herr1⟩, hinv1⟩
  case inr =>
    rw [herr1] at hout
    dsimp only at hout
    subst hout
    rcases hinv1 with hinv1 | ⟨o1, hinv1, _⟩ <;> rw [hinv1] <;>
      exact ⟨by simp [failFastTrace], fun _ => ⟨e1, rfl⟩,
        fun _ => ⟨⟨e1, rfl⟩, by simp, by simp, by simp, by simp⟩⟩
  case inl =>
  rw [hok1] at hout
  dsimp only at hout
  rw [hinv1] at hout
  rcases execute_stage_spec agents "writer"
      (mkTask ("Write content about: " ++ topic) "write" (taskIds 1)
        (pvSet (pipelineCtx topic (pipelineTargetLength target_length dfltLen) metadata)
          "research" r1.output))
      (clock 2) (clock 3) with
    ⟨r2, hok2, hinv2, hs2, hprov2⟩ | ⟨⟨e2, herr2⟩, hinv2⟩
  case inr =>
    rw [herr2] at hout
    dsimp only at hout
    subst hout
    rcases hinv2 with hinv2 | ⟨o2, hinv2, _⟩ <;> rw [hinv2] <;>
      exact ⟨⟨rfl, by simp [entryOk_ok _ r1 hs1, failFastTrace]⟩, fun _ => ⟨e2, rfl⟩,
        fun _ => ⟨⟨e2, rfl⟩, by simp, by simp, by simp, by simp⟩⟩
  case inl =>
  rw [hok2] at hout
  dsimp only at hout
  rw [hinv2] at hout
  rcases execute_stage_spec agents "editor"
      (mkTask ("Edit content about: " ++ topic) "edit" (taskIds 2)
        (pvSet (pipelineCtx topic (pipelineTargetLength target_length dfltLen) metadata)
          "draft" r2.output))
      (clock 4) (clock 5) with
    ⟨r3, hok3, hinv3, hs3, hprov3⟩ | ⟨⟨e3, herr3⟩, hinv3⟩
  case inr =>
    rw [herr3] at hout
    dsimp only at hout
    subst hout
    rcases hinv3 with hinv3 | ⟨o3, hinv3, _⟩ <;> rw [hinv3] <;>
      exact ⟨⟨rfl, by simp [entryOk_ok _ r1 hs1, entryOk_ok _ r2 hs2, failFastTrace]⟩,
        fun _ => ⟨e3, rfl⟩,
        fun _ => ⟨⟨e3, rfl⟩, by simp, by simp, by simp, by simp⟩⟩
  case inl =>
  have hedFalse : (∀ logic, agents "editor" = some logic →
      ∀ t r, logic t = Except.ok r → r.success = false) → False := by
    intro hed
    obtain ⟨lg, t', r0, hag3, hlog3, hs0⟩ := hprov3
    rw [hed lg hag3 t' r0 hlog3] at hs0
    exact absurd hs0 (by simp)
  rw [hok3] at hout
  dsimp only at hout
  rw [hinv3] at hout
  rcases execute_stage_spec agents "seo"
      (mkTask ("Optimize SEO for: " ++ topic) "optimize" (taskIds 3)
        (pvSet (pipelineCtx topic (pipelineTargetLength target_length dfltLen) metadata)
          "edited" r3.output))
      (clock 6) (clock 7) with
    ⟨r4, hok4, hinv4, hs4, hprov4⟩ | ⟨⟨e4, herr4⟩, hinv4⟩
  case inr =>
    rw [herr4] at hout
    dsimp only at hout
    subst hout
    rcases hinv4 with hinv4 | ⟨o4, hinv4, _⟩ <;> rw [hinv4] <;>
      exact ⟨⟨rfl, by simp [entryOk_ok _ r1 hs1, entryOk_ok _ r2 hs2,
          entryOk_ok _ r3 hs3, failFastTrace]⟩,
        fun _ => ⟨e4, rfl⟩, fun hed => absurd (hedFalse hed) (by simp)⟩
  case inl =>
  rw [hok4] at hout
  dsimp only at hout
  rw [hinv4] at hout
  rcases execute_stage_spec agents "quality_reviewer"
      (mkTask ("Review quality for: " ++ topic) "quality" (taskIds 4)
        (pvSet (pvSet (pipelineCtx topic (pipelineTargetLength target_length dfltLen)
          metadata) "seo" r4.output) "min_quality_score" minQ))
      (clock 8) (clock 9) with
    ⟨r5, hok5, hinv5, hs5, hprov5⟩ | ⟨⟨e5, herr5⟩, hinv5⟩
  case inr =>
    rw [herr5] at hout
    dsimp only at hout
    subst hout
    rcases hinv5 with hinv5 | ⟨o5, hinv5, _⟩ <;> rw [hinv5] <;>
      exact ⟨⟨rfl, by simp [entryOk_ok _ r1 hs1, entryOk_ok _ r2 hs2,
          entryOk_ok _ r3 hs3, entryOk_ok _ r4 hs4, failFastTrace]⟩,
        fun _ => ⟨e5, rfl⟩, fun hed => absurd (hedFalse hed) (by simp)⟩
  case inl =>
  rw [hok5] at hout
  dsimp only at hout
  rw [hinv5] at hout
  rcases execute_stage_spec agents "image_prompt"
      (mkTask ("Generate image prompts for: " ++ topic) "image_prompt" (taskIds 5)
        (pvSet (pipelineCtx topic (pipelineTargetLength target_length dfltLen) metadata)
          "quality" r5.output))
      (clock 10) (clock 11) with
    ⟨r6, hok6, hinv6, hs6, hprov6⟩ | ⟨⟨e6, herr6⟩, hinv6⟩
  case inr =>
    rw [herr6] at hout
    dsimp only at hout
    subst hout
    rcases hinv6 with hinv6 | ⟨o6, hinv6, _⟩ <;> rw [hinv6] <;>
      exact ⟨⟨rfl, by simp [entryOk_ok _ r1 hs1, entryOk_ok _ r2 hs2,
          entryOk_ok _ r3 hs3, entryOk_ok _ r4 hs4, entryOk_ok _ r5 hs5, failFastTrace]⟩,
        fun _ => ⟨e6, rfl⟩, fun hed => absurd (hedFalse hed) (by simp)⟩
  case inl =>
  rw [hok6] at hout
  dsimp only at hout
  rw [hinv6] at hout
  rcases execute_stage_spec agents "visual_suggestion"
      (mkTask ("Generate visual suggestions for: " ++ topic) "visual" (taskIds 6)
        (pvSet (pvSet (pipelineCtx topic (pipelineTargetLength target_length dfltLen)
          metadata) "quality" r5.output) "image_prompts" r6.output))
      (clock 12) (clock 13) with
    ⟨r7, hok7, hinv7, hs7, hprov7⟩ | ⟨⟨e7, herr7⟩, hinv7⟩
  case inr =>
    rw [herr7] at hout
    dsimp only at hout
    subst hout
    rcases hinv7 with hinv7 | ⟨o7, hinv7, _⟩ <;> rw [hinv7] <;>
      exact ⟨⟨rfl, by simp [entryOk_ok _ r1 hs1, entryOk_ok _ r2 hs2,
          entryOk_ok _ r3 hs3, entryOk_ok _ r4 hs4, entryOk_ok _ r5 hs5,
          entryOk_ok _ r6 hs6, failFastTrace]⟩,
        fun _ => ⟨e7, rfl⟩, fun hed => absurd (hedFalse hed) (by simp)⟩
  case inl =>
  rw [hok7] at hout
  dsimp only at hout
  rw [hinv7] at hout
  have htr : ∀ entry ∈
      ([("research", Except.ok r1)] ++ [("writer", Except.ok r2)] ++
        [("editor", Except.ok r3)] ++ [("seo", Except.ok r4)] ++
        [("quality_reviewer", Except.ok r5)] ++ [("image_prompt", Except.ok r6)] ++
        [("visual_suggestion", Except.ok r7)] :
        List (String × Except AgentExecutionError TaskResult)), entryOk entry := by
    intro entry hmem
    simp at hmem
    rcases hmem with rfl | rfl | rfl | rfl | rfl | rfl | rfl
    · exact entryOk_ok _ r1 hs1
    · exact entryOk_ok _ r2 hs2
    · exact entryOk_ok _ r3 hs3
    · exact entryOk_ok _ r4 hs4
    · exact entryOk_ok _ r5 hs5
    · exact entryOk_ok _ r6 hs6
    · exact entryOk_ok _ r7 hs7
  have hfft : failFastTrace
      ([("research", Except.ok r1)] ++ [("writer", Except.ok r2)] ++
        [("editor", Except.ok r3)] ++ [("seo", Except.ok r4)] ++
        [("quality_reviewer", Except.ok r5)] ++ [("image_prompt", Except.ok r6)] ++
        [("visual_suggestion", Except.ok r7)]) stageNames := by
    have l7 : failFastTrace [("visual_suggestion", Except.ok r7)] ["visual_suggestion"] :=
      ⟨rfl, Or.inr rfl⟩
    have l6 : failFastTrace [("image_prompt", Except.ok r6),
        ("visual_suggestion", Except.ok r7)] ["image_prompt", "visual_suggestion"] :=
      ⟨rfl, Or.inl ⟨entryOk_ok _ r6 hs6, l7⟩⟩
    have l5 : failFastTrace [("quality_reviewer", Except.ok r5),
        ("image_prompt", Except.ok r6), ("visual_suggestion", Except.ok r7)]
        ["quality_reviewer", "image_prompt", "visual_suggestion"] :=
      ⟨rfl, Or.inl ⟨entryOk_ok _ r5 hs5, l6⟩⟩
    have l4 : failFastTrace [("seo", Except.ok r4), ("quality_reviewer", Except.ok r5),
        ("image_prompt", Except.ok r6), ("visual_suggestion", Except.ok r7)]
        ["seo", "quality_reviewer", "image_prompt", "visual_suggestion"] :=
      ⟨rfl, Or.inl ⟨entryOk_ok _ r4 hs4, l5⟩⟩
    have l3 : failFastTrace [("editor", Except.ok r3), ("seo", Except.ok r4),
        ("quality_reviewer", Except.ok r5), ("image_prompt", Except.ok r6),
        ("visual_suggestion", Except.ok r7)]
        ["editor", "seo", "quality_reviewer", "image_prompt", "visual_suggestion"] :=
      ⟨rfl, Or.inl ⟨entryOk_ok _ r3 hs3, l4⟩⟩
    have l2 : failFastTrace [("writer", Except.ok r2), ("editor", Except.ok r3),
        ("seo", Except.ok r4), ("quality_reviewer", Except.ok r5),
        ("image_prompt", Except.ok r6), ("visual_suggestion", Except.ok r7)]
        ["writer", "editor", "seo", "quality_reviewer", "image_prompt",
          "visual_suggestion"] :=
      ⟨rfl, Or.inl ⟨entryOk_ok _ r2 hs2, l3⟩⟩
    exact ⟨rfl, Or.inl ⟨entryOk_ok _ r1 hs1, l2⟩⟩
  cases hasm : assembleContentResult topic pid r4 r5 r6 r7 with
  | error msg =>
    rw [hasm] at hout
    dsimp only at hout
    subst hout
    refine ⟨hfft, fun hbad => ⟨PipelineError.pyError msg, rfl⟩,
      fun hed => absurd (hedFalse hed) (by simp)⟩
  | ok cr =>
    rw [hasm] at hout
    dsimp only at hout
    subst hout
    refine ⟨hfft, ?_, fun hed => absurd (hedFalse hed) (by simp)⟩
    intro hbad
    obtain ⟨entry, hmem, hno⟩ := hbad
    exact absurd (htr entry hmem) hno

/-- Witness for C1: a concrete oracle whose editor agent always returns
`success=false` while every other agent succeeds; the run raises and
none of the four post-edit agents appears in the invocation trace. -/
theorem c1_pipeline_fail_fast_witness :
    (∃ e, (ContentPipeline.create_content
        (fun name => some (fun t =>
          Except.ok ⟨t.task_id, decide (name ≠ "editor"), PyVal.vnone, none, 0⟩))
        "Lunar cycles and goal-setting" none [] 1000 (PyVal.vint 8) "p"
        (fun _ => "tid") (fun _ => 0)).result = Except.error e) ∧
    "seo" ∉ (ContentPipeline.create_content
        (fun name => some (fun t =>
          Except.ok ⟨t.task_id, decide (name ≠ "editor"), PyVal.vnone, none, 0⟩))
        "Lunar cycles and goal-setting" none [] 1000 (PyVal.vint 8) "p"
        (fun _ => "tid") (fun _ => 0)).trace.map Prod.fst ∧
    "quality_reviewer" ∉ (ContentPipeline.create_content
        (fun name => some (fun t =>
          Except.ok ⟨t.task_id, decide (name ≠ "editor"), PyVal.vnone, none, 0⟩))
        "Lunar cycles and goal-setting" none [] 1000 (PyVal.vint 8) "p"
        (fun _ => "tid") (fun _ => 0)).trace.map Prod.fst ∧
    "image_prompt" ∉ (ContentPipeline.create_content
        (fun name => some (fun t =>
          Except.ok ⟨t.task_id, decide (name ≠ "editor"), PyVal.vnone, none, 0⟩))
        "Lunar cycles and goal-setting" none [] 1000 (PyVal.vint 8) "p"
        (fun _ => "tid") (fun _ => 0)).trace.map Prod.fst ∧
    "visual_suggestion" ∉ (ContentPipeline.create_content
        (fun name => some (fun t =>
          Except.ok ⟨t.task_id, decide (name ≠ "editor"), PyVal.vnone, none, 0⟩))
        "Lunar cycles and goal-setting" none [] 1000 (PyVal.vint 8) "p"
        (fun _ => "tid") (fun _ => 0)).trace.map Prod.fst :=
  (c1_pipeline_fail_fast
    (fun name => some (fun t =>
      Except.ok ⟨t.task_id, decide (name ≠ "editor"), PyVal.vnone, none, 0⟩))
    "Lunar cycles and goal-setting" none [] 1000 (PyVal.vint 8) "p"
    (fun _ => "tid") (fun _ => 0) _ rfl).2.2
    (by
      intro logic hl t r hr
      rw [← Option.some.inj hl] at hr
      rw [← Except.ok.inj hr]
      rfl)

end StellatusSpec
